import Mathlib

/-!
Verification of the `pySudoers.py` rule-extraction pipeline.

Strings from the Python program are modelled as `List Char`.  The character
classes below model the ASCII fragment of Python's `\s`, `str.lower`,
`str.strip` and `str.split` semantics; the same model is used uniformly on
the code side and on the spec side, so the theorems compare the two
faithfully on their common domain.
-/

set_option autoImplicit false

namespace PySudoers

/-! ### Character classes -/

/-- Python regex `\s` (ASCII part: space, tab, newline, carriage return,
vertical tab, form feed); also the whitespace set of `str.strip()` and
`str.split()`. -/
def isPyWs (c : Char) : Bool :=
  decide (c = ' ' ∨ c = '\t' ∨ c = '\n' ∨ c = '\r' ∨ c = Char.ofNat 11 ∨ c = Char.ofNat 12)

/-- Regex class `[a-z]`. -/
def isLowerAlpha (c : Char) : Bool := decide ('a' ≤ c ∧ c ≤ 'z')

/-- Regex class `[0-9]`. -/
def isDigitCh (c : Char) : Bool := decide ('0' ≤ c ∧ c ≤ '9')

/-- Regex class `[a-z_]` (first character of the principal identifier). -/
def isIdentStart (c : Char) : Bool := isLowerAlpha c || decide (c = '_')

/-- Regex class `[a-z0-9_\-]` (remaining characters of the identifier). -/
def isIdentChar (c : Char) : Bool :=
  isLowerAlpha c || isDigitCh c || decide (c = '_') || decide (c = '-')

/-- `str.lower()` on one character (ASCII part). -/
def pyLowerChar (c : Char) : Char :=
  if 'A' ≤ c ∧ c ≤ 'Z' then Char.ofNat (c.toNat + 32) else c

/-- `str.lower()` (ASCII part). -/
def lowerStr (s : List Char) : List Char := s.map pyLowerChar

/-- `str.strip()` with no arguments: remove leading and trailing whitespace. -/
def pyStrip (s : List Char) : List Char :=
  ((s.dropWhile isPyWs).reverse.dropWhile isPyWs).reverse

/-- Shorthand: character data of a string literal. -/
def lit (s : String) : List Char := s.toList

/-! ### Basic list utilities used by the models -/

/-- Boolean prefix test (Python's `str.startswith` / regex literal match). -/
def startsWithL : List Char → List Char → Bool
  | [], _ => true
  | _ :: _, [] => false
  | c :: cs, d :: ds => decide (c = d) && startsWithL cs ds

/-- Boolean substring test: Python's `needle in hay`. -/
def containsSub (needle hay : List Char) : Bool :=
  (List.range (hay.length + 1)).any (fun i => startsWithL needle (hay.drop i))

/-! ### Rule Classifier — code side

Model of `rule_regex` (`src/pySudoers.py` lines 42-43):

    ^(\%?[a-z_][a-z0-9_\-]*)\s+ALL=\(ALL\)(\:ALL)?(\s+NOPASSWD\: ALL)?(\s+.*)?$

applied with `re.match` to `line.strip()` (line 95).  The optional groups
are rendered by explicit search over all ways the backtracking engine can
split the remaining input: a `\s+` piece is a non-empty run of whitespace
and `.*` is a run of non-newline characters, exactly as in the pattern.
`$` is end-of-input: the input is the stripped line, so it cannot end in a
newline and the "just before a trailing newline" alternative of Python's
`$` is vacuous.  The identifier group `(\%?[a-z_][a-z0-9_\-]*)` and the
run `\s+` before the literal `ALL=(ALL)` are deterministic, because the
identifier characters, the whitespace characters, and the letter `A` are
pairwise disjoint, so no backtracking into them can succeed. -/

/-- `\s+X` for a continuation `X`: some non-empty whitespace split works. -/
def plusWsThen (f : List Char → Bool) (s : List Char) : Bool :=
  (List.range (s.length + 1)).any
    (fun k => decide (1 ≤ k) && (s.take k).all isPyWs && f (s.drop k))

/-- `.*` character class: anything but a newline. -/
def noNL (s : List Char) : Bool := s.all (fun c => !decide (c = '\n'))

/-- Regex tail `(\s+.*)?$`. -/
def tail4 (s : List Char) : Bool := decide (s = []) || plusWsThen noNL s

/-- Regex tail `(\s+NOPASSWD\: ALL)?(\s+.*)?$`. -/
def tail3 (s : List Char) : Bool :=
  plusWsThen (fun r => startsWithL (lit "NOPASSWD: ALL") r && tail4 (r.drop 13)) s
    || tail4 s

/-- Regex tail `(\:ALL)?(\s+NOPASSWD\: ALL)?(\s+.*)?$`. -/
def tail2 (s : List Char) : Bool :=
  (startsWithL (lit ":ALL") s && tail3 (s.drop 4)) || tail3 s

/-- After the optional `%` and the first identifier character: the rest of
the identifier (`[a-z0-9_\-]*`, greedy and deterministic here), then
`\s+ALL=\(ALL\)` and the tail.  Returns group 1 on success. -/
def identAndTail (pc : List Char) (c : Char) (t : List Char) : Option (List Char) :=
  if plusWsThen (fun r => startsWithL (lit "ALL=(ALL)") r && tail2 (r.drop 9))
      (t.dropWhile isIdentChar)
  then some (pc ++ c :: t.takeWhile isIdentChar)
  else none

/-- `rule_regex.match` on an (already stripped) string; `some` holds
`match.group(1)`. -/
def rule_regex_match (s : List Char) : Option (List Char) :=
  match s with
  | [] => none
  | c0 :: t0 =>
    if c0 = '%' then
      match t0 with
      | [] => none
      | c :: t => if isIdentStart c = true then identAndTail ['%'] c t else none
    else
      if isIdentStart c0 = true then identAndTail [] c0 t0 else none

/-- The classifier as invoked by the pipeline (line 95):
`rule_regex.match(line.strip())`. -/
def classify_line (l : List Char) : Option (List Char) :=
  rule_regex_match (pyStrip l)

/-- First whitespace-delimited token of a string. -/
def firstToken (s : List Char) : List Char := s.takeWhile (fun c => !isPyWs c)

/-- Derived fragment file basename (lines 109-110):
`file_prefix + "_" + user_or_group.replace('%', '')`.  The constant
directory part `sudoers_d_dir + "/"` is elided from the model. -/
def frag_file_base (pfx u : List Char) : List Char :=
  pfx ++ '_' :: u.filter (fun d => !decide (d = '%'))

/-- Spec side: the principal "with the group marker stripped". -/
def stripMarker (p : List Char) : List Char :=
  match p with
  | [] => []
  | c :: q => if c = '%' then q else c :: q

/-! ### Rule Classifier — spec side

Grammar from spec §4.1 / claim C1:
`<principal> ALL=(ALL)[:ALL][ NOPASSWD: ALL][ <trailing>]`, where the
principal is a lowercase identifier (letters, digits, underscore, hyphen)
optionally preceded by the group marker `%`.  Separating spaces in the
grammar stand for non-empty whitespace runs ("whitespace-delimited"
tokens, §8); `<trailing>` is arbitrary text on the same line (no
newline). -/

/-- Identifier character set named by the spec: lowercase letters, digits,
underscore, hyphen. -/
def specIdentChars (q : List Char) : Prop :=
  q ≠ [] ∧ ∀ c ∈ q, isLowerAlpha c = true ∨ isDigitCh c = true ∨ c = '_' ∨ c = '-'

/-- Spec identifier, literally as claim C1 words it: "not starting with a
digit" is the only restriction on the first character. -/
def specIdentLit (q : List Char) : Prop :=
  specIdentChars q ∧ ∀ c, q.head? = some c → isDigitCh c = false

/-- Amended spec identifier: not starting with a digit or a hyphen. -/
def specIdentA (q : List Char) : Prop :=
  specIdentChars q ∧ ∀ c, q.head? = some c → isDigitCh c = false ∧ c ≠ '-'

/-- Principal, literal reading: bare identifier or `%`-prefixed identifier. -/
def specPrincipalLit (p : List Char) : Prop :=
  specIdentLit p ∨ ∃ q, p = '%' :: q ∧ specIdentLit q

/-- Principal, amended reading. -/
def specPrincipalA (p : List Char) : Prop :=
  specIdentA p ∨ ∃ q, p = '%' :: q ∧ specIdentA q

/-- A non-empty whitespace run. -/
def wsRun1 (w : List Char) : Prop := w ≠ [] ∧ ∀ c ∈ w, isPyWs c = true

/-- Optional `[:ALL]` piece. -/
def specColonOpt (o : List Char) : Prop := o = [] ∨ o = lit ":ALL"

/-- Optional `[ NOPASSWD: ALL]` piece. -/
def specNoPwOpt (o : List Char) : Prop :=
  o = [] ∨ ∃ w, wsRun1 w ∧ o = w ++ lit "NOPASSWD: ALL"

/-- Optional `[ <trailing>]` piece. -/
def specTrailOpt (o : List Char) : Prop :=
  o = [] ∨ ∃ w t, wsRun1 w ∧ (∀ c ∈ t, c ≠ '\n') ∧ o = w ++ t

/-- The line `s` has the claimed grammar shape with principal `p`
(literal reading of the identifier restriction). -/
def specGrammarLit (s p : List Char) : Prop :=
  ∃ w o1 o2 o3, specPrincipalLit p ∧ wsRun1 w ∧ specColonOpt o1 ∧
    specNoPwOpt o2 ∧ specTrailOpt o3 ∧
    s = p ++ w ++ lit "ALL=(ALL)" ++ o1 ++ o2 ++ o3

/-- The line `s` has the claimed grammar shape with principal `p`
(amended reading: the identifier must not start with a digit or hyphen). -/
def specGrammarA (s p : List Char) : Prop :=
  ∃ w o1 o2 o3, specPrincipalA p ∧ wsRun1 w ∧ specColonOpt o1 ∧
    specNoPwOpt o2 ∧ specTrailOpt o3 ∧
    s = p ++ w ++ lit "ALL=(ALL)" ++ o1 ++ o2 ++ o3

/-! ### Duplicate Detector (`entry_exists_in_sudoers_d`, src lines 66-77) -/

/-- Helper for `strip_comments`: the flag says whether we are inside a
`#`-comment (dropping characters until the next newline). -/
def strip_comments_aux : Bool → List Char → List Char
  | _, [] => []
  | inComment, c :: t =>
    if c = '\n' then c :: strip_comments_aux false t
    else if inComment = true then strip_comments_aux true t
    else if c = '#' then strip_comments_aux true t
    else c :: strip_comments_aux false t

/-- `re.sub(r'#.*', '', s)` (lines 73-74): delete from each `#` to the end
of its line (`.` does not match a newline; the newline itself is kept). -/
def strip_comments (s : List Char) : List Char := strip_comments_aux false s

/-- Helper for `splitWs`: `cur` is the (reversed) word being accumulated. -/
def splitWs_aux (cur : List Char) : List Char → List (List Char)
  | [] => if cur = [] then [] else [cur.reverse]
  | c :: t =>
    if isPyWs c then
      (if cur = [] then splitWs_aux [] t else cur.reverse :: splitWs_aux [] t)
    else splitWs_aux (c :: cur) t

/-- `str.split()` with no arguments: split on whitespace runs, no empty
pieces. -/
def splitWs (s : List Char) : List (List Char) := splitWs_aux [] s

/-- `' '.join(parts)`. -/
def joinSpace (parts : List (List Char)) : List Char := List.intercalate [' '] parts

/-- Line 67: `normalized_entry = ' '.join(entry.lower().split())`.
Note: no comment stripping is applied to the entry. -/
def normalized_entry (entry : List Char) : List Char := joinSpace (splitWs (lowerStr entry))

/-- Lines 73-74: `' '.join(re.sub(r'#.*', '', file_content).lower().split())`. -/
def normalized_file_content (content : List Char) : List Char :=
  joinSpace (splitWs (lowerStr (strip_comments content)))

/-- The entry normalization as claim C2 words it ("comments stripped,
whitespace collapsed, and lowercased"), for comparison with the code. -/
def spec_normalized_entry (entry : List Char) : List Char :=
  joinSpace (splitWs (lowerStr (strip_comments entry)))

/-- `entry_exists_in_sudoers_d(entry, sudoers_d_dir)` (lines 66-77).  The
fragment directory is modelled as the association list of
`(file_name, file content)` in `os.listdir` order; Python's substring test
`normalized_entry in normalized_file_content` is `containsSub`. -/
def entry_exists_in_sudoers_d (entry : List Char)
    (dir : List (List Char × List Char)) : Option (List Char) :=
  match dir with
  | [] => none
  | (file_name, content) :: rest =>
    if containsSub (normalized_entry entry) (normalized_file_content content)
    then some file_name
    else entry_exists_in_sudoers_d entry rest

/-! ### Source Mutator (`remove_entry_from_sudoers`, src lines 80-88) -/

/-- The lines kept by the rewrite: those with `line.strip() != entry`
(line 84). -/
def remove_filtered (src : List (List Char)) (entry : List Char) : List (List Char) :=
  src.filter (fun l => !decide (pyStrip l = entry))

/-- Observable contents of the source file and of the temporary file at
one instant of the rewrite. -/
structure MutatorState where
  src : List (List Char)
  temp : List (List Char)
deriving DecidableEq

/-- Micro-step trace of `remove_entry_from_sudoers`.  Phase 1
(lines 82-85): one state per source line considered, the kept lines
accumulating in the temporary file while the source file is untouched.
Phase 2 (line 88): `shutil.move(temp.name, sudoers_file)`.  The flag
`same_fs` says whether the temporary file and the source file are on the
same filesystem; the temporary file comes from
`tempfile.NamedTemporaryFile` with no `dir` argument, i.e. the default
temporary directory, so this depends on the deployment.  On the same
filesystem the move is a single atomic `os.rename` (one final state).
Across filesystems `shutil.move` falls back to `copy2` + `unlink`: the
copy opens the destination with truncation and rewrites it in chunks —
modelled at line granularity — so the destination passes through the
truncated and partially-written states before the final unlink of the
temporary file.  An `IOError` (or a crash) at any point truncates the
trace at the state reached so far. -/
def mutator_trace (src : List (List Char)) (entry : List Char) (same_fs : Bool) :
    List MutatorState :=
  (List.range (src.length + 1)).map
    (fun i => { src := src, temp := remove_filtered (src.take i) entry })
  ++ (if same_fs then
        [{ src := remove_filtered src entry, temp := remove_filtered src entry }]
      else
        (List.range ((remove_filtered src entry).length + 1)).map
          (fun j => { src := (remove_filtered src entry).take j,
                      temp := remove_filtered src entry })
        ++ [{ src := remove_filtered src entry, temp := [] }])

/-- The committed result of `remove_entry_from_sudoers` when no error
occurs. -/
def remove_entry_from_sudoers (src : List (List Char)) (entry : List Char) :
    List (List Char) :=
  remove_filtered src entry

/-! ### Pipeline (`create_sudoers_d_files`, src lines 91-143) -/

/-- The configuration handed to `create_sudoers_d_files`.  `file_pfx`
models the `file_prefix` argument. -/
structure Config where
  file_pfx : List Char
  test_mode : Bool
  remove_entries : Bool

/-- The environment: the external validator (`visudo -cf`, keyed by the
fragment file name and content, `true` = exit status 0), and fault
oracles deciding which file operations raise `IOError`. -/
structure Env where
  visudo_ok : List Char → List Char → Bool
  frag_write_fails : List Char → List Char → Bool
  remove_fails : List Char → Bool

/-- Observable filesystem state: the source file (list of lines, without
terminators) and the fragment directory (file name, content). -/
structure FsState where
  src_lines : List (List Char)
  frag_dir : List (List Char × List Char)
deriving DecidableEq

/-- Per-line observable events of the pipeline. -/
inductive Event where
  | created : List Char → Event
  | would_create : List Char → Event
  | skipped_dup : List Char → List Char → Event
  | skipped_priv : List Char → Event
  | validated : List Char → Bool → Event
  | removed_line : List Char → Event
  | io_error : Event
deriving DecidableEq

/-- `open(file_name, 'w')` in the fragment directory: truncate-and-write
if a file of that name exists, create it otherwise. -/
def write_frag (dir : List (List Char × List Char)) (name content : List Char) :
    List (List Char × List Char) :=
  if dir.any (fun q => decide (q.1 = name))
  then dir.map (fun q => if q.1 = name then (name, content) else q)
  else dir ++ [(name, content)]

/-- `os.remove(file_name)`. -/
def erase_frag (dir : List (List Char × List Char)) (name : List Char) :
    List (List Char × List Char) :=
  dir.filter (fun q => !decide (q.1 = name))

/-- Line 104: `user_or_group.lower() in ['root', '%wheel']`. -/
def is_priv (u : List Char) : Bool :=
  decide (lowerStr u = lit "root") || decide (lowerStr u = lit "%wheel")

/-- One iteration of the loop in `create_sudoers_d_files` (lines 94-141).
`.error` is a raised `IOError` (it propagates to the handler at line 142,
ending the run); the carried pair is the state and events at the raise. -/
def process_line (cfg : Config) (env : Env) (st : FsState) (line : List Char) :
    Except (FsState × List Event) (FsState × List Event) :=
  match classify_line line with
  | none => .ok (st, [])
  | some user_or_group =>
    let entry := pyStrip line
    if is_priv user_or_group then .ok (st, [.skipped_priv user_or_group])
    else
      match entry_exists_in_sudoers_d entry st.frag_dir with
      | some existing_file => .ok (st, [.skipped_dup user_or_group existing_file])
      | none =>
        let file_name := frag_file_base cfg.file_pfx user_or_group
        if cfg.test_mode then .ok (st, [.would_create file_name])
        else if env.frag_write_fails file_name entry then .error (st, [])
        else
          let st1 : FsState := { st with frag_dir := write_frag st.frag_dir file_name entry }
          if env.visudo_ok file_name entry = false then
            .ok ({ st1 with frag_dir := erase_frag st1.frag_dir file_name },
              [.created file_name, .validated file_name false])
          else if cfg.remove_entries then
            if env.remove_fails entry then
              .error (st1, [.created file_name, .validated file_name true])
            else
              .ok ({ st1 with src_lines := remove_entry_from_sudoers st1.src_lines entry },
                [.created file_name, .validated file_name true, .removed_line entry])
          else .ok (st1, [.created file_name, .validated file_name true])

/-- The loop over the lines of the (already opened) source file.  A raised
`IOError` ends the whole loop: the `try`/`except` at lines 92 and 142
wraps the entire iteration, so no further line is processed. -/
def run_lines (cfg : Config) (env : Env) : List (List Char) → FsState → FsState × List Event
  | [], st => (st, [])
  | l :: ls, st =>
    match process_line cfg env st l with
    | .error (st1, ev) => (st1, ev ++ [.io_error])
    | .ok (st1, ev) =>
      let r := run_lines cfg env ls st1
      (r.1, ev ++ r.2)

/-- `create_sudoers_d_files`: iterate over the snapshot of the source
file taken when it was opened (the open handle is unaffected by later
replacement of the path). -/
def create_sudoers_d_files (cfg : Config) (env : Env) (st : FsState) : FsState × List Event :=
  run_lines cfg env st.src_lines st

/-! ### Run-level invariants -/

/-! ### Second-run idempotence machinery -/

/-- The fragment name a line would produce: `some` exactly for matched,
non-privileged lines. -/
def frag_name_of (cfg : Config) (l : List Char) : Option (List Char) :=
  match classify_line l with
  | some u => if is_priv u = true then none else some (frag_file_base cfg.file_pfx u)
  | none => none

/-! ## Claims

One theorem per claim of the specification audit, with counterexamples
and witnesses where required. -/

/-! ### Facts about the character classes -/

/-! ### Equivalence of the regex and the spec grammar -/

/-! ### Lemmas about the duplicate detector -/

/-! ### Lemmas about the fragment directory operations -/

/-! ### Case analysis of one pipeline iteration -/

/-! ### Mutator trace lemmas -/

/-- Witness for C10: the overwrite theorem at the counterexample state. -/
theorem startsWithL_iff (a : List Char) : ∀ b : List Char,
    startsWithL a b = true ↔ ∃ t, b = a ++ t := by
  induction a with
  | nil =>
      intro b
      simp [startsWithL]
  | cons c cs ih =>
      intro b
      cases b with
      | nil =>
          simp [startsWithL]
      | cons d ds =>
          simp only [startsWithL, Bool.and_eq_true, decide_eq_true_eq, ih ds]
          constructor
          · rintro ⟨rfl, t, rfl⟩
            exact ⟨t, rfl⟩
          · rintro ⟨t, h⟩
            cases h
            exact ⟨rfl, t, rfl⟩

theorem startsWithL_append (a t : List Char) : startsWithL a (a ++ t) = true :=
  (startsWithL_iff a (a ++ t)).mpr ⟨t, rfl⟩

theorem containsSub_iff (n h : List Char) :
    containsSub n h = true ↔ ∃ s t, h = s ++ n ++ t := by
  unfold containsSub
  rw [List.any_eq_true]
  constructor
  · rintro ⟨i, _, hi⟩
    rcases (startsWithL_iff n (h.drop i)).mp hi with ⟨t, ht⟩
    refine ⟨h.take i, t, ?_⟩
    conv_lhs => rw [← List.take_append_drop i h]
    rw [ht, List.append_assoc]
  · rintro ⟨s, t, rfl⟩
    refine ⟨s.length, ?_, ?_⟩
    · rw [List.mem_range]
      simp only [List.length_append]
      omega
    · rw [List.append_assoc, List.drop_left]
      exact startsWithL_append n t

theorem containsSub_refl (x : List Char) : containsSub x x = true :=
  (containsSub_iff x x).mpr ⟨[], [], by simp⟩

theorem containsSub_of_eq (x y : List Char) (h : x = y) : containsSub x y = true := by
  subst h; exact containsSub_refl x

theorem takeWhile_append_all (f : Char → Bool) (a : List Char) :
    ∀ b : List Char, (∀ c ∈ a, f c = true) →
      (a ++ b).takeWhile f = a ++ b.takeWhile f := by
  induction a with
  | nil => intro b _; simp
  | cons c cs ih =>
      intro b h
      have hc : f c = true := h c (by simp)
      simp only [List.cons_append, List.takeWhile_cons, hc, if_true]
      rw [ih b (fun d hd => h d (by simp [hd]))]

theorem dropWhile_append_all (f : Char → Bool) (a : List Char) :
    ∀ b : List Char, (∀ c ∈ a, f c = true) →
      (a ++ b).dropWhile f = b.dropWhile f := by
  induction a with
  | nil => intro b _; simp
  | cons c cs ih =>
      intro b h
      have hc : f c = true := h c (by simp)
      simp only [List.cons_append, List.dropWhile_cons, hc, if_true]
      exact ih b (fun d hd => h d (by simp [hd]))

theorem takeWhile_cons_false (f : Char → Bool) (c : Char) (b : List Char)
    (h : f c = false) : (c :: b).takeWhile f = [] := by
  simp [List.takeWhile_cons, h]

theorem dropWhile_cons_false (f : Char → Bool) (c : Char) (b : List Char)
    (h : f c = false) : (c :: b).dropWhile f = c :: b := by
  simp [List.dropWhile_cons, h]

theorem mem_takeWhile_imp_pred (f : Char → Bool) :
    ∀ (l : List Char) (x : Char), x ∈ l.takeWhile f → f x = true := by
  intro l
  induction l with
  | nil => intro x hx; simp [List.takeWhile] at hx
  | cons c cs ih =>
      intro x hx
      rw [List.takeWhile_cons] at hx
      by_cases hc : f c = true
      · rw [if_pos hc] at hx
        rcases List.mem_cons.mp hx with h | h
        · subst h; exact hc
        · exact ih x h
      · rw [if_neg hc] at hx
        simp at hx

theorem ws_not_identChar {c : Char} (h : isPyWs c = true) : isIdentChar c = false := by
  rcases of_decide_eq_true h with rfl | rfl | rfl | rfl | rfl | rfl <;> decide

theorem identChar_not_ws {c : Char} (h : isIdentChar c = true) : isPyWs c = false := by
  cases hw : isPyWs c
  · rfl
  · rw [ws_not_identChar hw] at h; cases h

theorem lowerAlpha_not_digit {c : Char} (h : isLowerAlpha c = true) : isDigitCh c = false := by
  rcases of_decide_eq_true h with ⟨h1, _⟩
  apply decide_eq_false
  rintro ⟨_, h4⟩
  have : 'a' ≤ '9' := le_trans h1 h4
  exact absurd this (by decide)

theorem identStart_identChar {c : Char} (h : isIdentStart c = true) : isIdentChar c = true := by
  unfold isIdentStart at h
  unfold isIdentChar
  rcases Bool.or_eq_true_iff.mp h with h1 | h1 <;> simp [h1]

theorem identStart_not_digit {c : Char} (h : isIdentStart c = true) : isDigitCh c = false := by
  rcases Bool.or_eq_true_iff.mp h with h1 | h1
  · exact lowerAlpha_not_digit h1
  · rcases of_decide_eq_true h1 with rfl; decide

theorem identStart_ne_dash {c : Char} (h : isIdentStart c = true) : c ≠ '-' := by
  rintro rfl
  rcases Bool.or_eq_true_iff.mp h with h1 | h1
  · exact absurd h1 (by decide)
  · exact absurd h1 (by decide)

theorem identStart_ne_pct {c : Char} (h : isIdentStart c = true) : c ≠ '%' := by
  rintro rfl
  rcases Bool.or_eq_true_iff.mp h with h1 | h1
  · exact absurd h1 (by decide)
  · exact absurd h1 (by decide)

theorem identChar_ne_pct {c : Char} (h : isIdentChar c = true) : c ≠ '%' := by
  rintro rfl
  rcases Bool.or_eq_true_iff.mp h with h1 | h1
  · rcases Bool.or_eq_true_iff.mp h1 with h2 | h2
    · rcases Bool.or_eq_true_iff.mp h2 with h3 | h3
      · exact absurd h3 (by decide)
      · exact absurd h3 (by decide)
    · exact absurd h2 (by decide)
  · exact absurd h1 (by decide)

theorem identChar_ne_nl {c : Char} (h : isIdentChar c = true) : c ≠ '\n' := by
  rintro rfl
  exact absurd h (by decide)

theorem plusWsThen_iff (f : List Char → Bool) (s : List Char) :
    plusWsThen f s = true ↔
      ∃ w r, s = w ++ r ∧ w ≠ [] ∧ (∀ c ∈ w, isPyWs c = true) ∧ f r = true := by
  unfold plusWsThen
  rw [List.any_eq_true]
  constructor
  · rintro ⟨k, hk, h⟩
    rw [List.mem_range] at hk
    simp only [Bool.and_eq_true, decide_eq_true_eq, List.all_eq_true] at h
    rcases h with ⟨⟨hk1, hall⟩, hf⟩
    refine ⟨s.take k, s.drop k, (List.take_append_drop k s).symm, ?_, hall, hf⟩
    rw [← List.length_pos, List.length_take]
    omega
  · rintro ⟨w, r, rfl, hw, hws, hf⟩
    refine ⟨w.length, ?_, ?_⟩
    · rw [List.mem_range, List.length_append]
      omega
    · simp only [Bool.and_eq_true, decide_eq_true_eq, List.all_eq_true]
      refine ⟨⟨?_, ?_⟩, ?_⟩
      · have := List.length_pos.mpr hw
        omega
      · rw [List.take_left]; exact hws
      · rw [List.drop_left]; exact hf

theorem noNL_iff (s : List Char) : noNL s = true ↔ ∀ c ∈ s, c ≠ '\n' := by
  unfold noNL
  rw [List.all_eq_true]
  constructor
  · intro h c hc
    have := h c hc
    simp at this
    exact this
  · intro h c hc
    simp [h c hc]

theorem tail4_complete (o : List Char) (h : specTrailOpt o) : tail4 o = true := by
  unfold tail4
  rcases h with rfl | ⟨w, t, hw, ht, rfl⟩
  · simp
  · apply Bool.or_eq_true_iff.mpr
    right
    exact (plusWsThen_iff _ _).mpr ⟨w, t, rfl, hw.1, hw.2, (noNL_iff t).mpr ht⟩

theorem tail4_sound (o : List Char) (h : tail4 o = true) : specTrailOpt o := by
  unfold tail4 at h
  rcases Bool.or_eq_true_iff.mp h with h1 | h1
  · left; exact of_decide_eq_true h1
  · right
    rcases (plusWsThen_iff _ _).mp h1 with ⟨w, r, rfl, hw, hws, hf⟩
    exact ⟨w, r, ⟨hw, hws⟩, (noNL_iff r).mp hf, rfl⟩

theorem tail3_complete (o2 o3 : List Char) (h2 : specNoPwOpt o2) (h3 : specTrailOpt o3) :
    tail3 (o2 ++ o3) = true := by
  unfold tail3
  apply Bool.or_eq_true_iff.mpr
  rcases h2 with rfl | ⟨w, hw, rfl⟩
  · right
    simpa using tail4_complete o3 h3
  · left
    apply (plusWsThen_iff _ _).mpr
    refine ⟨w, lit "NOPASSWD: ALL" ++ o3, by simp, hw.1, hw.2, ?_⟩
    apply Bool.and_eq_true_iff.mpr
    constructor
    · exact startsWithL_append _ _
    · have h13 : (lit "NOPASSWD: ALL").length = 13 := rfl
      rw [← h13, List.drop_left]
      exact tail4_complete o3 h3

theorem tail3_sound (y : List Char) (h : tail3 y = true) :
    ∃ o2 o3, y = o2 ++ o3 ∧ specNoPwOpt o2 ∧ specTrailOpt o3 := by
  unfold tail3 at h
  rcases Bool.or_eq_true_iff.mp h with h1 | h1
  · rcases (plusWsThen_iff _ _).mp h1 with ⟨w, r, rfl, hw, hws, hf⟩
    rcases Bool.and_eq_true_iff.mp hf with ⟨hsw, ht4⟩
    rcases (startsWithL_iff _ r).mp hsw with ⟨u, rfl⟩
    have h13 : (lit "NOPASSWD: ALL").length = 13 := rfl
    rw [← h13, List.drop_left] at ht4
    refine ⟨w ++ lit "NOPASSWD: ALL", u, by simp, ?_, tail4_sound u ht4⟩
    exact Or.inr ⟨w, ⟨hw, hws⟩, rfl⟩
  · exact ⟨[], y, by simp, Or.inl rfl, tail4_sound y h1⟩

theorem tail2_complete (o1 o2 o3 : List Char)
    (h1 : specColonOpt o1) (h2 : specNoPwOpt o2) (h3 : specTrailOpt o3) :
    tail2 (o1 ++ (o2 ++ o3)) = true := by
  unfold tail2
  apply Bool.or_eq_true_iff.mpr
  rcases h1 with rfl | rfl
  · right
    simpa using tail3_complete o2 o3 h2 h3
  · left
    apply Bool.and_eq_true_iff.mpr
    constructor
    · exact startsWithL_append _ _
    · have h4 : (lit ":ALL").length = 4 := rfl
      rw [← h4, List.drop_left]
      exact tail3_complete o2 o3 h2 h3

theorem tail2_sound (y : List Char) (h : tail2 y = true) :
    ∃ o1 o2 o3, y = o1 ++ (o2 ++ o3) ∧ specColonOpt o1 ∧ specNoPwOpt o2 ∧ specTrailOpt o3 := by
  unfold tail2 at h
  rcases Bool.or_eq_true_iff.mp h with h1 | h1
  · rcases Bool.and_eq_true_iff.mp h1 with ⟨hsw, ht3⟩
    rcases (startsWithL_iff _ y).mp hsw with ⟨u, rfl⟩
    have h4 : (lit ":ALL").length = 4 := rfl
    rw [← h4, List.drop_left] at ht3
    rcases tail3_sound u ht3 with ⟨o2, o3, rfl, ho2, ho3⟩
    exact ⟨lit ":ALL", o2, o3, rfl, Or.inr rfl, ho2, ho3⟩
  · rcases tail3_sound y h1 with ⟨o2, o3, rfl, ho2, ho3⟩
    exact ⟨[], o2, o3, by simp, Or.inl rfl, ho2, ho3⟩

theorem rule_regex_match_cons (c0 : Char) (t0 : List Char) :
    rule_regex_match (c0 :: t0) =
      if c0 = '%' then
        match t0 with
        | [] => none
        | c :: t => if isIdentStart c = true then identAndTail ['%'] c t else none
      else if isIdentStart c0 = true then identAndTail [] c0 t0 else none := rfl

theorem rule_regex_match_pct_cons (c : Char) (t : List Char) :
    rule_regex_match ('%' :: c :: t) =
      if isIdentStart c = true then identAndTail ['%'] c t else none := rfl

theorem specIdentA_of (c : Char) (cs : List Char) (h1 : isIdentStart c = true)
    (h2 : ∀ d ∈ cs, isIdentChar d = true) : specIdentA (c :: cs) := by
  refine ⟨⟨by simp, ?_⟩, ?_⟩
  · intro d hd
    rcases List.mem_cons.mp hd with rfl | hd
    · rcases Bool.or_eq_true_iff.mp h1 with h | h
      · exact Or.inl h
      · exact Or.inr (Or.inr (Or.inl (of_decide_eq_true h)))
    · have h3 := h2 d hd
      unfold isIdentChar at h3
      rcases Bool.or_eq_true_iff.mp h3 with h | h
      · rcases Bool.or_eq_true_iff.mp h with h4 | h4
        · rcases Bool.or_eq_true_iff.mp h4 with h5 | h5
          · exact Or.inl h5
          · exact Or.inr (Or.inl h5)
        · exact Or.inr (Or.inr (Or.inl (of_decide_eq_true h4)))
      · exact Or.inr (Or.inr (Or.inr (of_decide_eq_true h)))
  · intro d hd
    rw [List.head?_cons, Option.some_inj] at hd
    subst hd
    exact ⟨identStart_not_digit h1, identStart_ne_dash h1⟩

theorem specIdentA_cases (q : List Char) (h : specIdentA q) :
    ∃ c cs, q = c :: cs ∧ isIdentStart c = true ∧ ∀ d ∈ cs, isIdentChar d = true := by
  rcases h with ⟨⟨hne, hall⟩, hhead⟩
  cases q with
  | nil => exact absurd rfl hne
  | cons c cs =>
      rcases hhead c (by rw [List.head?_cons]) with ⟨hnd, hnh⟩
      refine ⟨c, cs, rfl, ?_, ?_⟩
      · rcases hall c (by simp) with h | h | h | h
        · exact Bool.or_eq_true_iff.mpr (Or.inl h)
        · rw [h] at hnd; cases hnd
        · exact Bool.or_eq_true_iff.mpr (Or.inr (by simp [h]))
        · exact absurd h hnh
      · intro d hd
        unfold isIdentChar
        rcases hall d (by simp [hd]) with h | h | h | h
        · simp [h]
        · simp [h]
        · simp [h]
        · simp [h]

theorem stripMarker_cons (c : Char) (q : List Char) :
    stripMarker (c :: q) = if c = '%' then q else c :: q := rfl

theorem frag_base_eq_stripMarker (pfx p : List Char) (h : specPrincipalA p) :
    frag_file_base pfx p = pfx ++ '_' :: stripMarker p := by
  unfold frag_file_base
  rcases h with h | ⟨q, rfl, h⟩
  · rcases specIdentA_cases p h with ⟨c, cs, rfl, hc, hcs⟩
    have hfil : (c :: cs).filter (fun d => !decide (d = '%')) = c :: cs := by
      rw [List.filter_eq_self]
      intro d hd
      rcases List.mem_cons.mp hd with rfl | hd
      · simp [identStart_ne_pct hc]
      · simp [identChar_ne_pct (hcs d hd)]
    rw [hfil, stripMarker_cons, if_neg (identStart_ne_pct hc)]
  · rcases specIdentA_cases q h with ⟨c, cs, rfl, hc, hcs⟩
    have hfil : ('%' :: c :: cs).filter (fun d => !decide (d = '%')) = c :: cs := by
      rw [List.filter_cons_of_neg (by simp), List.filter_eq_self]
      intro d hd
      rcases List.mem_cons.mp hd with rfl | hd
      · simp [identStart_ne_pct hc]
      · simp [identChar_ne_pct (hcs d hd)]
    rw [hfil, stripMarker_cons, if_pos rfl]

/-- `identAndTail` succeeds when the remainder of the line after the first
identifier character decomposes as identifier characters, a whitespace run,
and a tail accepted by the rest of the pattern. -/
theorem identAndTail_complete (pc : List Char) (c w0 : Char) (cs w' Y : List Char)
    (hcs : ∀ d ∈ cs, isIdentChar d = true)
    (hW : ∀ d ∈ w0 :: w', isPyWs d = true)
    (hf : (startsWithL (lit "ALL=(ALL)") Y && tail2 (Y.drop 9)) = true) :
    identAndTail pc c (cs ++ (w0 :: (w' ++ Y))) = some (pc ++ c :: cs) := by
  have hw0 : isPyWs w0 = true := hW w0 (by simp)
  have hdrop : (cs ++ (w0 :: (w' ++ Y))).dropWhile isIdentChar = w0 :: (w' ++ Y) := by
    rw [dropWhile_append_all isIdentChar cs _ hcs]
    exact dropWhile_cons_false _ _ _ (ws_not_identChar hw0)
  have htake : (cs ++ (w0 :: (w' ++ Y))).takeWhile isIdentChar = cs := by
    rw [takeWhile_append_all isIdentChar cs _ hcs,
      takeWhile_cons_false _ _ _ (ws_not_identChar hw0), List.append_nil]
  have hpws : plusWsThen
      (fun r => startsWithL (lit "ALL=(ALL)") r && tail2 (r.drop 9)) (w0 :: (w' ++ Y)) = true := by
    apply (plusWsThen_iff _ _).mpr
    exact ⟨w0 :: w', Y, by simp, by simp, hW, hf⟩
  unfold identAndTail
  rw [hdrop, htake, if_pos hpws]

/-- Completeness half of the classifier equivalence: every line of the
(amended) spec grammar shape is matched by `rule_regex`, and group 1 is
exactly the grammar principal. -/
theorem rule_regex_complete (s p : List Char) (h : specGrammarA s p) :
    rule_regex_match s = some p := by
  rcases h with ⟨w, o1, o2, o3, hp, hw, h1, h2, h3, rfl⟩
  cases w with
  | nil => exact absurd rfl hw.1
  | cons w0 w' =>
  have hWall : ∀ d ∈ w0 :: w', isPyWs d = true := hw.2
  have hf : (startsWithL (lit "ALL=(ALL)") (lit "ALL=(ALL)" ++ (o1 ++ (o2 ++ o3)))
      && tail2 ((lit "ALL=(ALL)" ++ (o1 ++ (o2 ++ o3))).drop 9)) = true := by
    apply Bool.and_eq_true_iff.mpr
    refine ⟨startsWithL_append _ _, ?_⟩
    have h9 : (lit "ALL=(ALL)").length = 9 := rfl
    rw [← h9, List.drop_left]
    exact tail2_complete o1 o2 o3 h1 h2 h3
  rcases hp with hid | ⟨q, rfl, hid⟩
  · rcases specIdentA_cases p hid with ⟨c, cs, rfl, hc, hcs⟩
    have hshape : (c :: cs) ++ (w0 :: w') ++ lit "ALL=(ALL)" ++ o1 ++ o2 ++ o3
        = c :: (cs ++ (w0 :: (w' ++ (lit "ALL=(ALL)" ++ (o1 ++ (o2 ++ o3)))))) := by
      simp [List.append_assoc]
    rw [hshape, rule_regex_match_cons, if_neg (identStart_ne_pct hc), if_pos hc,
      identAndTail_complete [] c w0 cs w' _ hcs hWall hf]
    simp
  · rcases specIdentA_cases q hid with ⟨c, cs, rfl, hc, hcs⟩
    have hshape : ('%' :: c :: cs) ++ (w0 :: w') ++ lit "ALL=(ALL)" ++ o1 ++ o2 ++ o3
        = '%' :: c :: (cs ++ (w0 :: (w' ++ (lit "ALL=(ALL)" ++ (o1 ++ (o2 ++ o3)))))) := by
      simp [List.append_assoc]
    rw [hshape, rule_regex_match_pct_cons, if_pos hc,
      identAndTail_complete ['%'] c w0 cs w' _ hcs hWall hf]
    simp

/-- Soundness of `identAndTail`: a successful match determines group 1 and a
grammar-shaped decomposition of the remaining input. -/
theorem identAndTail_sound (pc : List Char) (c : Char) (t p : List Char)
    (h : identAndTail pc c t = some p) :
    ∃ tw w o1 o2 o3, p = pc ++ c :: tw ∧ (∀ d ∈ tw, isIdentChar d = true) ∧
      wsRun1 w ∧ specColonOpt o1 ∧ specNoPwOpt o2 ∧ specTrailOpt o3 ∧
      t = tw ++ (w ++ (lit "ALL=(ALL)" ++ (o1 ++ (o2 ++ o3)))) := by
  unfold identAndTail at h
  by_cases hcond : plusWsThen
      (fun r => startsWithL (lit "ALL=(ALL)") r && tail2 (r.drop 9))
      (t.dropWhile isIdentChar) = true
  · rw [if_pos hcond, Option.some_inj] at h
    rcases (plusWsThen_iff _ _).mp hcond with ⟨w, r, hsplit, hwne, hws, hf⟩
    rcases Bool.and_eq_true_iff.mp hf with ⟨hsw, ht2⟩
    rcases (startsWithL_iff _ r).mp hsw with ⟨u, rfl⟩
    have h9 : (lit "ALL=(ALL)").length = 9 := rfl
    rw [← h9, List.drop_left] at ht2
    rcases tail2_sound u ht2 with ⟨o1, o2, o3, rfl, ho1, ho2, ho3⟩
    refine ⟨t.takeWhile isIdentChar, w, o1, o2, o3, h.symm,
      (fun d hd => mem_takeWhile_imp_pred isIdentChar t d hd),
      ⟨hwne, hws⟩, ho1, ho2, ho3, ?_⟩
    conv_lhs => rw [← List.takeWhile_append_dropWhile isIdentChar t]
    rw [hsplit]
  · rw [if_neg hcond] at h
    cases h

/-- Characters of the matched principal are never whitespace. -/
theorem principal_chars_not_ws (pc : List Char) (c : Char) (tw : List Char)
    (hpc : pc = [] ∨ pc = ['%']) (hc : isIdentStart c = true)
    (htw : ∀ d ∈ tw, isIdentChar d = true) :
    ∀ d ∈ pc ++ c :: tw, (!isPyWs d) = true := by
  intro d hd
  rcases List.mem_append.mp hd with hd | hd
  · rcases hpc with rfl | rfl
    · simp at hd
    · rcases List.mem_singleton.mp hd with rfl
      decide
  · rcases List.mem_cons.mp hd with rfl | hd
    · rw [identChar_not_ws (identStart_identChar hc)]; rfl
    · rw [identChar_not_ws (htw d hd)]; rfl

/-- The first whitespace-delimited token of a line of the matched shape is
exactly the principal. -/
theorem firstToken_of_shape (pc : List Char) (c w0 : Char) (tw w1 X : List Char)
    (hpc : pc = [] ∨ pc = ['%']) (hc : isIdentStart c = true)
    (htw : ∀ d ∈ tw, isIdentChar d = true) (hw0 : isPyWs w0 = true) :
    firstToken (pc ++ (c :: (tw ++ ((w0 :: w1) ++ X)))) = pc ++ c :: tw := by
  unfold firstToken
  have h1 : pc ++ (c :: (tw ++ ((w0 :: w1) ++ X)))
      = (pc ++ c :: tw) ++ ((w0 :: w1) ++ X) := by
    simp [List.append_assoc]
  rw [h1, takeWhile_append_all _ _ _ (principal_chars_not_ws pc c tw hpc hc htw),
    List.cons_append, takeWhile_cons_false _ _ _ (by rw [hw0]; rfl), List.append_nil]

/-- Soundness half of the classifier equivalence: whenever `rule_regex`
matches, the line has the (amended) grammar shape with group 1 as the
principal, and group 1 is the first whitespace-delimited token. -/
theorem rule_regex_sound (s p : List Char) (h : rule_regex_match s = some p) :
    specGrammarA s p ∧ p = firstToken s := by
  cases s with
  | nil => cases h
  | cons c0 t0 =>
  by_cases hpct : c0 = '%'
  · subst hpct
    cases t0 with
    | nil => cases h
    | cons c t =>
    rw [rule_regex_match_pct_cons] at h
    by_cases hc : isIdentStart c = true
    · rw [if_pos hc] at h
      rcases identAndTail_sound ['%'] c t p h with
        ⟨tw, w, o1, o2, o3, hp, htw, hw, h1, h2, h3, hshape⟩
      cases w with
      | nil => exact absurd rfl hw.1
      | cons w0 w1 =>
      have hw0 : isPyWs w0 = true := hw.2 w0 (by simp)
      subst hshape
      constructor
      · refine ⟨w0 :: w1, o1, o2, o3, ?_, hw, h1, h2, h3, ?_⟩
        · exact Or.inr ⟨c :: tw, hp, specIdentA_of c _ hc htw⟩
        · rw [hp]
          simp [List.append_assoc]
      · rw [hp]
        have hs : ('%' :: c :: (tw ++ ((w0 :: w1) ++ (lit "ALL=(ALL)" ++ (o1 ++ (o2 ++ o3))))))
            = ['%'] ++ (c :: (tw ++ ((w0 :: w1) ++ (lit "ALL=(ALL)" ++ (o1 ++ (o2 ++ o3)))))) := by
          simp
        rw [hs, firstToken_of_shape ['%'] c w0 tw w1 _ (Or.inr rfl) hc htw hw0]
    · rw [if_neg hc] at h
      cases h
  · rw [rule_regex_match_cons, if_neg hpct] at h
    by_cases hc : isIdentStart c0 = true
    · rw [if_pos hc] at h
      rcases identAndTail_sound [] c0 t0 p h with
        ⟨tw, w, o1, o2, o3, hp, htw, hw, h1, h2, h3, hshape⟩
      cases w with
      | nil => exact absurd rfl hw.1
      | cons w0 w1 =>
      have hw0 : isPyWs w0 = true := hw.2 w0 (by simp)
      subst hshape
      constructor
      · refine ⟨w0 :: w1, o1, o2, o3, ?_, hw, h1, h2, h3, ?_⟩
        · refine Or.inl ?_
          rw [hp]
          simpa using specIdentA_of c0 _ hc htw
        · rw [hp]
          simp [List.append_assoc]
      · rw [hp]
        have hs : (c0 :: (tw ++ ((w0 :: w1) ++ (lit "ALL=(ALL)" ++ (o1 ++ (o2 ++ o3))))))
            = [] ++ (c0 :: (tw ++ ((w0 :: w1) ++ (lit "ALL=(ALL)" ++ (o1 ++ (o2 ++ o3)))))) := by
          simp
        rw [hs, firstToken_of_shape [] c0 w0 tw w1 _ (Or.inl rfl) hc htw hw0]
    · rw [if_neg hc] at h
      cases h

theorem entry_exists_cons (e n c : List Char) (rest : List (List Char × List Char)) :
    entry_exists_in_sudoers_d e ((n, c) :: rest) =
      if containsSub (normalized_entry e) (normalized_file_content c)
      then some n else entry_exists_in_sudoers_d e rest := rfl

theorem entry_exists_isSome_iff (e : List Char) :
    ∀ d : List (List Char × List Char),
      (entry_exists_in_sudoers_d e d).isSome = true ↔
        ∃ p ∈ d, containsSub (normalized_entry e) (normalized_file_content p.2) = true := by
  intro d
  induction d with
  | nil => simp [entry_exists_in_sudoers_d]
  | cons q rest ih =>
      obtain ⟨n, c⟩ := q
      rw [entry_exists_cons]
      by_cases hq : containsSub (normalized_entry e) (normalized_file_content c) = true
      · rw [if_pos hq]
        simp only [Option.isSome_some, true_iff]
        exact ⟨(n, c), by simp, hq⟩
      · rw [if_neg hq, ih]
        constructor
        · rintro ⟨p, hp, hc⟩
          exact ⟨p, by simp [hp], hc⟩
        · rintro ⟨p, hp, hc⟩
          rcases List.mem_cons.mp hp with rfl | hp
          · exact absurd hc hq
          · exact ⟨p, hp, hc⟩

theorem entry_exists_some_mem (e n : List Char) :
    ∀ d : List (List Char × List Char),
      entry_exists_in_sudoers_d e d = some n →
      ∃ c, (n, c) ∈ d ∧ containsSub (normalized_entry e) (normalized_file_content c) = true := by
  intro d
  induction d with
  | nil => intro h; cases h
  | cons q rest ih =>
      obtain ⟨n', c⟩ := q
      rw [entry_exists_cons]
      by_cases hq : containsSub (normalized_entry e) (normalized_file_content c) = true
      · rw [if_pos hq]
        intro h
        rw [Option.some_inj] at h
        subst h
        exact ⟨c, by simp, hq⟩
      · rw [if_neg hq]
        intro h
        rcases ih h with ⟨c', hmem, hc'⟩
        exact ⟨c', by simp [hmem], hc'⟩

theorem entry_exists_append_isSome (e : List Char) (d δ : List (List Char × List Char))
    (h : (entry_exists_in_sudoers_d e d).isSome = true) :
    (entry_exists_in_sudoers_d e (d ++ δ)).isSome = true := by
  rw [entry_exists_isSome_iff] at h ⊢
  rcases h with ⟨p, hp, hc⟩
  exact ⟨p, List.mem_append_left _ hp, hc⟩

theorem strip_comments_aux_id (e : List Char) (h : ∀ c ∈ e, c ≠ '#') :
    strip_comments_aux false e = e := by
  induction e with
  | nil => rfl
  | cons c t ih =>
      unfold strip_comments_aux
      have iht : strip_comments_aux false t = t := ih (fun d hd => h d (by simp [hd]))
      by_cases hnl : c = '\n'
      · rw [if_pos hnl, iht]
      · rw [if_neg hnl, if_neg (by simp), if_neg (h c (by simp)), iht]

theorem strip_comments_id (e : List Char) (h : ∀ c ∈ e, c ≠ '#') :
    strip_comments e = e := strip_comments_aux_id e h

/-- For a `#`-free entry (in particular for any matched line with no
comment), the file-content normalization agrees with the entry
normalization. -/
theorem normalized_file_content_no_hash (e : List Char) (h : ∀ c ∈ e, c ≠ '#') :
    normalized_file_content e = normalized_entry e := by
  unfold normalized_file_content normalized_entry
  rw [strip_comments_id e h]

theorem write_frag_of_fresh (dir : List (List Char × List Char)) (n c : List Char)
    (h : ∀ c', (n, c') ∉ dir) : write_frag dir n c = dir ++ [(n, c)] := by
  unfold write_frag
  rw [if_neg]
  intro hany
  rcases List.any_eq_true.mp hany with ⟨q, hq, hq1⟩
  rw [decide_eq_true_eq] at hq1
  have hq2 : (n, q.2) = q := by rw [← hq1]
  exact h q.2 (hq2 ▸ hq)

theorem mem_write_frag (dir : List (List Char × List Char)) (n c : List Char)
    (p : List Char × List Char) (h : p ∈ write_frag dir n c) : p ∈ dir ∨ p = (n, c) := by
  unfold write_frag at h
  by_cases ha : dir.any (fun q => decide (q.1 = n)) = true
  · rw [if_pos ha] at h
    rcases List.mem_map.mp h with ⟨q, hq, hqe⟩
    by_cases hqn : q.1 = n
    · right
      rw [← hqe, if_pos hqn]
    · left
      rw [← hqe, if_neg hqn]
      exact hq
  · rw [if_neg ha] at h
    rcases List.mem_append.mp h with h | h
    · exact Or.inl h
    · exact Or.inr (List.mem_singleton.mp h)

theorem mem_erase_frag (dir : List (List Char × List Char)) (n : List Char)
    (p : List Char × List Char) (h : p ∈ erase_frag dir n) :
    p ∈ dir ∧ p.1 ≠ n := by
  rcases List.mem_filter.mp h with ⟨hmem, hp⟩
  rw [Bool.not_eq_eq_eq_not, Bool.not_true, decide_eq_false_iff_not] at hp
  exact ⟨hmem, hp⟩

theorem run_lines_nil (cfg : Config) (env : Env) (st : FsState) :
    run_lines cfg env [] st = (st, []) := rfl

theorem run_lines_cons (cfg : Config) (env : Env) (l : List Char) (ls : List (List Char))
    (st : FsState) :
    run_lines cfg env (l :: ls) st =
      (match process_line cfg env st l with
       | .error (st1, ev) => (st1, ev ++ [.io_error])
       | .ok (st1, ev) => ((run_lines cfg env ls st1).1, ev ++ (run_lines cfg env ls st1).2)) := rfl

theorem run_lines_cons_ok (cfg : Config) (env : Env) (l : List Char) (ls : List (List Char))
    (st st1 : FsState) (ev : List Event) (h : process_line cfg env st l = .ok (st1, ev)) :
    run_lines cfg env (l :: ls) st =
      ((run_lines cfg env ls st1).1, ev ++ (run_lines cfg env ls st1).2) := by
  rw [run_lines_cons, h]

theorem run_lines_cons_error (cfg : Config) (env : Env) (l : List Char) (ls : List (List Char))
    (st st1 : FsState) (ev : List Event) (h : process_line cfg env st l = .error (st1, ev)) :
    run_lines cfg env (l :: ls) st = (st1, ev ++ [.io_error]) := by
  rw [run_lines_cons, h]

/-- Reduction of `process_line` once the classifier has matched. -/
theorem process_line_of_some (cfg : Config) (env : Env) (st : FsState) (l u : List Char)
    (hcl : classify_line l = some u) :
    process_line cfg env st l =
      (if is_priv u = true then Except.ok (st, [Event.skipped_priv u])
       else
         match entry_exists_in_sudoers_d (pyStrip l) st.frag_dir with
         | some existing_file => Except.ok (st, [Event.skipped_dup u existing_file])
         | none =>
           if cfg.test_mode = true then
             Except.ok (st, [Event.would_create (frag_file_base cfg.file_pfx u)])
           else if env.frag_write_fails (frag_file_base cfg.file_pfx u) (pyStrip l) = true then
             Except.error (st, [])
           else if env.visudo_ok (frag_file_base cfg.file_pfx u) (pyStrip l) = false then
             Except.ok
               ({ st with frag_dir := (erase_frag
                   (write_frag st.frag_dir (frag_file_base cfg.file_pfx u) (pyStrip l))
                   (frag_file_base cfg.file_pfx u)) },
                 [Event.created (frag_file_base cfg.file_pfx u),
                  Event.validated (frag_file_base cfg.file_pfx u) false])
           else if cfg.remove_entries = true then
             if env.remove_fails (pyStrip l) = true then
               Except.error
                 ({ st with frag_dir :=
                     write_frag st.frag_dir (frag_file_base cfg.file_pfx u) (pyStrip l) },
                   [Event.created (frag_file_base cfg.file_pfx u),
                    Event.validated (frag_file_base cfg.file_pfx u) true])
             else
               Except.ok
                 ({ src_lines := remove_entry_from_sudoers st.src_lines (pyStrip l),
                    frag_dir :=
                      write_frag st.frag_dir (frag_file_base cfg.file_pfx u) (pyStrip l) },
                   [Event.created (frag_file_base cfg.file_pfx u),
                    Event.validated (frag_file_base cfg.file_pfx u) true,
                    Event.removed_line (pyStrip l)])
           else
             Except.ok
               ({ st with frag_dir :=
                   write_frag st.frag_dir (frag_file_base cfg.file_pfx u) (pyStrip l) },
                 [Event.created (frag_file_base cfg.file_pfx u),
                  Event.validated (frag_file_base cfg.file_pfx u) true])) := by
  unfold process_line
  rw [hcl]

theorem process_line_of_none (cfg : Config) (env : Env) (st : FsState) (l : List Char)
    (hcl : classify_line l = none) : process_line cfg env st l = .ok (st, []) := by
  unfold process_line
  rw [hcl]

theorem process_line_of_priv (cfg : Config) (env : Env) (st : FsState) (l u : List Char)
    (hcl : classify_line l = some u) (hpriv : is_priv u = true) :
    process_line cfg env st l = .ok (st, [.skipped_priv u]) := by
  rw [process_line_of_some cfg env st l u hcl, if_pos hpriv]

theorem process_line_of_dup (cfg : Config) (env : Env) (st : FsState) (l u f : List Char)
    (hcl : classify_line l = some u) (hpriv : is_priv u = false)
    (hex : entry_exists_in_sudoers_d (pyStrip l) st.frag_dir = some f) :
    process_line cfg env st l = .ok (st, [.skipped_dup u f]) := by
  rw [process_line_of_some cfg env st l u hcl, if_neg (by simp [hpriv]), hex]

/-- Reduction of `process_line` in the fragment-creating region: matched,
not privileged, no duplicate found. -/
theorem process_line_of_nodup (cfg : Config) (env : Env) (st : FsState) (l u : List Char)
    (hcl : classify_line l = some u) (hpriv : is_priv u = false)
    (hex : entry_exists_in_sudoers_d (pyStrip l) st.frag_dir = none) :
    process_line cfg env st l =
      (if cfg.test_mode = true then
         Except.ok (st, [Event.would_create (frag_file_base cfg.file_pfx u)])
       else if env.frag_write_fails (frag_file_base cfg.file_pfx u) (pyStrip l) = true then
         Except.error (st, [])
       else if env.visudo_ok (frag_file_base cfg.file_pfx u) (pyStrip l) = false then
         Except.ok
           ({ st with frag_dir := (erase_frag
               (write_frag st.frag_dir (frag_file_base cfg.file_pfx u) (pyStrip l))
               (frag_file_base cfg.file_pfx u)) },
             [Event.created (frag_file_base cfg.file_pfx u),
              Event.validated (frag_file_base cfg.file_pfx u) false])
       else if cfg.remove_entries = true then
         if env.remove_fails (pyStrip l) = true then
           Except.error
             ({ st with frag_dir :=
                 write_frag st.frag_dir (frag_file_base cfg.file_pfx u) (pyStrip l) },
               [Event.created (frag_file_base cfg.file_pfx u),
                Event.validated (frag_file_base cfg.file_pfx u) true])
         else
           Except.ok
             ({ src_lines := remove_entry_from_sudoers st.src_lines (pyStrip l),
                frag_dir :=
                  write_frag st.frag_dir (frag_file_base cfg.file_pfx u) (pyStrip l) },
               [Event.created (frag_file_base cfg.file_pfx u),
                Event.validated (frag_file_base cfg.file_pfx u) true,
                Event.removed_line (pyStrip l)])
       else
         Except.ok
           ({ st with frag_dir :=
               write_frag st.frag_dir (frag_file_base cfg.file_pfx u) (pyStrip l) },
             [Event.created (frag_file_base cfg.file_pfx u),
              Event.validated (frag_file_base cfg.file_pfx u) true])) := by
  rw [process_line_of_some cfg env st l u hcl, if_neg (by simp [hpriv]), hex]

theorem process_line_cases (cfg : Config) (env : Env) (st : FsState) (l : List Char) :
    (classify_line l = none ∧ process_line cfg env st l = .ok (st, [])) ∨
    (∃ u, classify_line l = some u ∧ is_priv u = true ∧
      process_line cfg env st l = .ok (st, [.skipped_priv u])) ∨
    (∃ u f, classify_line l = some u ∧ is_priv u = false ∧
      entry_exists_in_sudoers_d (pyStrip l) st.frag_dir = some f ∧
      process_line cfg env st l = .ok (st, [.skipped_dup u f])) ∨
    (∃ u, classify_line l = some u ∧ is_priv u = false ∧
      entry_exists_in_sudoers_d (pyStrip l) st.frag_dir = none ∧
      cfg.test_mode = true ∧
      process_line cfg env st l = .ok (st, [.would_create (frag_file_base cfg.file_pfx u)])) ∨
    (∃ u, classify_line l = some u ∧ is_priv u = false ∧
      entry_exists_in_sudoers_d (pyStrip l) st.frag_dir = none ∧
      cfg.test_mode = false ∧
      env.frag_write_fails (frag_file_base cfg.file_pfx u) (pyStrip l) = true ∧
      process_line cfg env st l = .error (st, [])) ∨
    (∃ u, classify_line l = some u ∧ is_priv u = false ∧
      entry_exists_in_sudoers_d (pyStrip l) st.frag_dir = none ∧
      cfg.test_mode = false ∧
      env.frag_write_fails (frag_file_base cfg.file_pfx u) (pyStrip l) = false ∧
      env.visudo_ok (frag_file_base cfg.file_pfx u) (pyStrip l) = false ∧
      process_line cfg env st l = .ok
        ({ st with frag_dir := (erase_frag
            (write_frag st.frag_dir (frag_file_base cfg.file_pfx u) (pyStrip l))
            (frag_file_base cfg.file_pfx u)) },
          [.created (frag_file_base cfg.file_pfx u),
           .validated (frag_file_base cfg.file_pfx u) false])) ∨
    (∃ u, classify_line l = some u ∧ is_priv u = false ∧
      entry_exists_in_sudoers_d (pyStrip l) st.frag_dir = none ∧
      cfg.test_mode = false ∧
      env.frag_write_fails (frag_file_base cfg.file_pfx u) (pyStrip l) = false ∧
      env.visudo_ok (frag_file_base cfg.file_pfx u) (pyStrip l) = true ∧
      cfg.remove_entries = true ∧ env.remove_fails (pyStrip l) = true ∧
      process_line cfg env st l = .error
        ({ st with frag_dir := write_frag st.frag_dir (frag_file_base cfg.file_pfx u) (pyStrip l) },
          [.created (frag_file_base cfg.file_pfx u),
           .validated (frag_file_base cfg.file_pfx u) true])) ∨
    (∃ u, classify_line l = some u ∧ is_priv u = false ∧
      entry_exists_in_sudoers_d (pyStrip l) st.frag_dir = none ∧
      cfg.test_mode = false ∧
      env.frag_write_fails (frag_file_base cfg.file_pfx u) (pyStrip l) = false ∧
      env.visudo_ok (frag_file_base cfg.file_pfx u) (pyStrip l) = true ∧
      cfg.remove_entries = true ∧ env.remove_fails (pyStrip l) = false ∧
      process_line cfg env st l = .ok
        ({ src_lines := remove_entry_from_sudoers st.src_lines (pyStrip l),
           frag_dir := write_frag st.frag_dir (frag_file_base cfg.file_pfx u) (pyStrip l) },
          [.created (frag_file_base cfg.file_pfx u),
           .validated (frag_file_base cfg.file_pfx u) true,
           .removed_line (pyStrip l)])) ∨
    (∃ u, classify_line l = some u ∧ is_priv u = false ∧
      entry_exists_in_sudoers_d (pyStrip l) st.frag_dir = none ∧
      cfg.test_mode = false ∧
      env.frag_write_fails (frag_file_base cfg.file_pfx u) (pyStrip l) = false ∧
      env.visudo_ok (frag_file_base cfg.file_pfx u) (pyStrip l) = true ∧
      cfg.remove_entries = false ∧
      process_line cfg env st l = .ok
        ({ st with frag_dir := write_frag st.frag_dir (frag_file_base cfg.file_pfx u) (pyStrip l) },
          [.created (frag_file_base cfg.file_pfx u),
           .validated (frag_file_base cfg.file_pfx u) true])) := by
  cases hcl : classify_line l with
  | none =>
      exact Or.inl ⟨rfl, process_line_of_none cfg env st l hcl⟩
  | some u =>
  by_cases hpriv : is_priv u = true
  · exact Or.inr (Or.inl ⟨u, rfl, hpriv, process_line_of_priv cfg env st l u hcl hpriv⟩)
  · have hpriv' : is_priv u = false := Bool.of_not_eq_true hpriv
    cases hex : entry_exists_in_sudoers_d (pyStrip l) st.frag_dir with
    | some f =>
        exact Or.inr (Or.inr (Or.inl ⟨u, f, rfl, hpriv', rfl,
          process_line_of_dup cfg env st l u f hcl hpriv' hex⟩))
    | none =>
    have hred := process_line_of_nodup cfg env st l u hcl hpriv' hex
    by_cases htest : cfg.test_mode = true
    · rw [if_pos htest] at hred
      exact Or.inr (Or.inr (Or.inr (Or.inl ⟨u, rfl, hpriv', rfl, htest, hred⟩)))
    · have htest' : cfg.test_mode = false := Bool.of_not_eq_true htest
      rw [if_neg htest] at hred
      by_cases hwf : env.frag_write_fails (frag_file_base cfg.file_pfx u) (pyStrip l) = true
      · rw [if_pos hwf] at hred
        exact Or.inr (Or.inr (Or.inr (Or.inr (Or.inl
          ⟨u, rfl, hpriv', rfl, htest', hwf, hred⟩))))
      · have hwf' : env.frag_write_fails (frag_file_base cfg.file_pfx u) (pyStrip l) = false :=
          Bool.of_not_eq_true hwf
        rw [if_neg hwf] at hred
        by_cases hok : env.visudo_ok (frag_file_base cfg.file_pfx u) (pyStrip l) = false
        · rw [if_pos hok] at hred
          exact Or.inr (Or.inr (Or.inr (Or.inr (Or.inr (Or.inl
            ⟨u, rfl, hpriv', rfl, htest', hwf', hok, hred⟩)))))
        · have hok' : env.visudo_ok (frag_file_base cfg.file_pfx u) (pyStrip l) = true := by
            cases hv : env.visudo_ok (frag_file_base cfg.file_pfx u) (pyStrip l)
            · exact absurd hv hok
            · rfl
          rw [if_neg hok] at hred
          by_cases hrm : cfg.remove_entries = true
          · rw [if_pos hrm] at hred
            by_cases hrf : env.remove_fails (pyStrip l) = true
            · rw [if_pos hrf] at hred
              exact Or.inr (Or.inr (Or.inr (Or.inr (Or.inr (Or.inr (Or.inl
                ⟨u, rfl, hpriv', rfl, htest', hwf', hok', hrm, hrf, hred⟩))))))
            · have hrf' : env.remove_fails (pyStrip l) = false := Bool.of_not_eq_true hrf
              rw [if_neg hrf] at hred
              exact Or.inr (Or.inr (Or.inr (Or.inr (Or.inr (Or.inr (Or.inr (Or.inl
                ⟨u, rfl, hpriv', rfl, htest', hwf', hok', hrm, hrf', hred⟩)))))))
          · have hrm' : cfg.remove_entries = false := Bool.of_not_eq_true hrm
            rw [if_neg hrm] at hred
            exact Or.inr (Or.inr (Or.inr (Or.inr (Or.inr (Or.inr (Or.inr (Or.inr
              ⟨u, rfl, hpriv', rfl, htest', hwf', hok', hrm', hred⟩)))))))

/-- Every fragment present after a run was either present before it or
passed validation when written. -/
theorem run_lines_frag_validated (cfg : Config) (env : Env) :
    ∀ (ls : List (List Char)) (st : FsState) (p : List Char × List Char),
      p ∈ (run_lines cfg env ls st).1.frag_dir →
      p ∈ st.frag_dir ∨ env.visudo_ok p.1 p.2 = true := by
  intro ls
  induction ls with
  | nil =>
      intro st p hp
      rw [run_lines_nil] at hp
      exact Or.inl hp
  | cons l ls ih =>
      intro st p hp
      rcases process_line_cases cfg env st l with
        ⟨hcl, hpl⟩ | ⟨u, hcl, hpriv, hpl⟩ | ⟨u, f, hcl, hpriv, hex, hpl⟩ |
        ⟨u, hcl, hpriv, hex, htest, hpl⟩ | ⟨u, hcl, hpriv, hex, htest, hwf, hpl⟩ |
        ⟨u, hcl, hpriv, hex, htest, hwf, hok, hpl⟩ |
        ⟨u, hcl, hpriv, hex, htest, hwf, hok, hrm, hrf, hpl⟩ |
        ⟨u, hcl, hpriv, hex, htest, hwf, hok, hrm, hrf, hpl⟩ |
        ⟨u, hcl, hpriv, hex, htest, hwf, hok, hrm, hpl⟩
      · rw [run_lines_cons_ok cfg env l ls st _ _ hpl] at hp
        exact ih st p hp
      · rw [run_lines_cons_ok cfg env l ls st _ _ hpl] at hp
        exact ih st p hp
      · rw [run_lines_cons_ok cfg env l ls st _ _ hpl] at hp
        exact ih st p hp
      · rw [run_lines_cons_ok cfg env l ls st _ _ hpl] at hp
        exact ih st p hp
      · rw [run_lines_cons_error cfg env l ls st _ _ hpl] at hp
        exact Or.inl hp
      · rw [run_lines_cons_ok cfg env l ls st _ _ hpl] at hp
        rcases ih _ p hp with hmem | hval
        · rcases mem_erase_frag _ _ p hmem with ⟨hmem2, hne⟩
          rcases mem_write_frag _ _ _ p hmem2 with hmem3 | heq
          · exact Or.inl hmem3
          · exact absurd (by rw [heq]) hne
        · exact Or.inr hval
      · rw [run_lines_cons_error cfg env l ls st _ _ hpl] at hp
        rcases mem_write_frag _ _ _ p hp with hmem | heq
        · exact Or.inl hmem
        · right
          rw [heq]
          exact hok
      · rw [run_lines_cons_ok cfg env l ls st _ _ hpl] at hp
        rcases ih _ p hp with hmem | hval
        · rcases mem_write_frag _ _ _ p hmem with hmem2 | heq
          · exact Or.inl hmem2
          · right
            rw [heq]
            exact hok
        · exact Or.inr hval
      · rw [run_lines_cons_ok cfg env l ls st _ _ hpl] at hp
        rcases ih _ p hp with hmem | hval
        · rcases mem_write_frag _ _ _ p hmem with hmem2 | heq
          · exact Or.inl hmem2
          · right
            rw [heq]
            exact hok
        · exact Or.inr hval

/-- Every fragment present after a run was either present before it or its
content is the stripped text of one of the processed lines. -/
theorem run_lines_frag_content (cfg : Config) (env : Env) :
    ∀ (ls : List (List Char)) (st : FsState) (p : List Char × List Char),
      p ∈ (run_lines cfg env ls st).1.frag_dir →
      p ∈ st.frag_dir ∨ ∃ l ∈ ls, p.2 = pyStrip l := by
  intro ls
  induction ls with
  | nil =>
      intro st p hp
      rw [run_lines_nil] at hp
      exact Or.inl hp
  | cons l ls ih =>
      intro st p hp
      have lift : p ∈ st.frag_dir ∨ (∃ l' ∈ ls, p.2 = pyStrip l') →
          p ∈ st.frag_dir ∨ ∃ l' ∈ l :: ls, p.2 = pyStrip l' := by
        rintro (hm | ⟨l', hl', he⟩)
        · exact Or.inl hm
        · exact Or.inr ⟨l', by simp [hl'], he⟩
      rcases process_line_cases cfg env st l with
        ⟨hcl, hpl⟩ | ⟨u, hcl, hpriv, hpl⟩ | ⟨u, f, hcl, hpriv, hex, hpl⟩ |
        ⟨u, hcl, hpriv, hex, htest, hpl⟩ | ⟨u, hcl, hpriv, hex, htest, hwf, hpl⟩ |
        ⟨u, hcl, hpriv, hex, htest, hwf, hok, hpl⟩ |
        ⟨u, hcl, hpriv, hex, htest, hwf, hok, hrm, hrf, hpl⟩ |
        ⟨u, hcl, hpriv, hex, htest, hwf, hok, hrm, hrf, hpl⟩ |
        ⟨u, hcl, hpriv, hex, htest, hwf, hok, hrm, hpl⟩
      · rw [run_lines_cons_ok cfg env l ls st _ _ hpl] at hp
        exact lift (ih st p hp)
      · rw [run_lines_cons_ok cfg env l ls st _ _ hpl] at hp
        exact lift (ih st p hp)
      · rw [run_lines_cons_ok cfg env l ls st _ _ hpl] at hp
        exact lift (ih st p hp)
      · rw [run_lines_cons_ok cfg env l ls st _ _ hpl] at hp
        exact lift (ih st p hp)
      · rw [run_lines_cons_error cfg env l ls st _ _ hpl] at hp
        exact Or.inl hp
      · rw [run_lines_cons_ok cfg env l ls st _ _ hpl] at hp
        rcases ih _ p hp with hmem | hrest
        · rcases mem_erase_frag _ _ p hmem with ⟨hmem2, hne⟩
          rcases mem_write_frag _ _ _ p hmem2 with hmem3 | heq
          · exact Or.inl hmem3
          · exact absurd (by rw [heq]) hne
        · exact lift (Or.inr hrest)
      · rw [run_lines_cons_error cfg env l ls st _ _ hpl] at hp
        rcases mem_write_frag _ _ _ p hp with hmem | heq
        · exact Or.inl hmem
        · exact Or.inr ⟨l, by simp, by rw [heq]⟩
      · rw [run_lines_cons_ok cfg env l ls st _ _ hpl] at hp
        rcases ih _ p hp with hmem | hrest
        · rcases mem_write_frag _ _ _ p hmem with hmem2 | heq
          · exact Or.inl hmem2
          · exact Or.inr ⟨l, by simp, by rw [heq]⟩
        · exact lift (Or.inr hrest)
      · rw [run_lines_cons_ok cfg env l ls st _ _ hpl] at hp
        rcases ih _ p hp with hmem | hrest
        · rcases mem_write_frag _ _ _ p hmem with hmem2 | heq
          · exact Or.inl hmem2
          · exact Or.inr ⟨l, by simp, by rw [heq]⟩
        · exact lift (Or.inr hrest)

/-- With removal disabled the source file is never rewritten. -/
theorem run_lines_src_unchanged (cfg : Config) (env : Env)
    (hrm : cfg.remove_entries = false) :
    ∀ (ls : List (List Char)) (st : FsState),
      (run_lines cfg env ls st).1.src_lines = st.src_lines := by
  intro ls
  induction ls with
  | nil =>
      intro st
      rw [run_lines_nil]
  | cons l ls ih =>
      intro st
      rcases process_line_cases cfg env st l with
        ⟨hcl, hpl⟩ | ⟨u, hcl, hpriv, hpl⟩ | ⟨u, f, hcl, hpriv, hex, hpl⟩ |
        ⟨u, hcl, hpriv, hex, htest, hpl⟩ | ⟨u, hcl, hpriv, hex, htest, hwf, hpl⟩ |
        ⟨u, hcl, hpriv, hex, htest, hwf, hok, hpl⟩ |
        ⟨u, hcl, hpriv, hex, htest, hwf, hok, hrm2, hrf, hpl⟩ |
        ⟨u, hcl, hpriv, hex, htest, hwf, hok, hrm2, hrf, hpl⟩ |
        ⟨u, hcl, hpriv, hex, htest, hwf, hok, hrm2, hpl⟩
      · rw [run_lines_cons_ok cfg env l ls st _ _ hpl]; exact ih st
      · rw [run_lines_cons_ok cfg env l ls st _ _ hpl]; exact ih st
      · rw [run_lines_cons_ok cfg env l ls st _ _ hpl]; exact ih st
      · rw [run_lines_cons_ok cfg env l ls st _ _ hpl]; exact ih st
      · rw [run_lines_cons_error cfg env l ls st _ _ hpl]
      · rw [run_lines_cons_ok cfg env l ls st _ _ hpl]; exact ih _
      · rw [hrm] at hrm2; cases hrm2
      · rw [hrm] at hrm2; cases hrm2
      · rw [run_lines_cons_ok cfg env l ls st _ _ hpl]; exact ih _

/-- In test mode a run leaves the state untouched and only logs. -/
theorem run_lines_test (cfg : Config) (env : Env) (ht : cfg.test_mode = true) :
    ∀ (ls : List (List Char)) (st : FsState),
      (run_lines cfg env ls st).1 = st ∧
      ∀ e ∈ (run_lines cfg env ls st).2,
        (∃ n, e = .would_create n) ∨ (∃ u f, e = .skipped_dup u f) ∨
        (∃ u, e = .skipped_priv u) := by
  intro ls
  induction ls with
  | nil =>
      intro st
      rw [run_lines_nil]
      exact ⟨rfl, by simp⟩
  | cons l ls ih =>
      intro st
      rcases process_line_cases cfg env st l with
        ⟨hcl, hpl⟩ | ⟨u, hcl, hpriv, hpl⟩ | ⟨u, f, hcl, hpriv, hex, hpl⟩ |
        ⟨u, hcl, hpriv, hex, htest, hpl⟩ | ⟨u, hcl, hpriv, hex, htest, hwf, hpl⟩ |
        ⟨u, hcl, hpriv, hex, htest, hwf, hok, hpl⟩ |
        ⟨u, hcl, hpriv, hex, htest, hwf, hok, hrm, hrf, hpl⟩ |
        ⟨u, hcl, hpriv, hex, htest, hwf, hok, hrm, hrf, hpl⟩ |
        ⟨u, hcl, hpriv, hex, htest, hwf, hok, hrm, hpl⟩
      · rw [run_lines_cons_ok cfg env l ls st _ _ hpl]
        refine ⟨(ih st).1, ?_⟩
        intro e he
        rcases List.mem_append.mp he with he | he
        · simp at he
        · exact (ih st).2 e he
      · rw [run_lines_cons_ok cfg env l ls st _ _ hpl]
        refine ⟨(ih st).1, ?_⟩
        intro e he
        rcases List.mem_append.mp he with he | he
        · rcases List.mem_singleton.mp he with rfl
          exact Or.inr (Or.inr ⟨u, rfl⟩)
        · exact (ih st).2 e he
      · rw [run_lines_cons_ok cfg env l ls st _ _ hpl]
        refine ⟨(ih st).1, ?_⟩
        intro e he
        rcases List.mem_append.mp he with he | he
        · rcases List.mem_singleton.mp he with rfl
          exact Or.inr (Or.inl ⟨u, f, rfl⟩)
        · exact (ih st).2 e he
      · rw [run_lines_cons_ok cfg env l ls st _ _ hpl]
        refine ⟨(ih st).1, ?_⟩
        intro e he
        rcases List.mem_append.mp he with he | he
        · rcases List.mem_singleton.mp he with rfl
          exact Or.inl ⟨frag_file_base cfg.file_pfx u, rfl⟩
        · exact (ih st).2 e he
      · rw [ht] at htest; cases htest
      · rw [ht] at htest; cases htest
      · rw [ht] at htest; cases htest
      · rw [ht] at htest; cases htest
      · rw [ht] at htest; cases htest

theorem frag_name_of_some (cfg : Config) (l u : List Char)
    (hcl : classify_line l = some u) :
    frag_name_of cfg l =
      if is_priv u = true then none else some (frag_file_base cfg.file_pfx u) := by
  unfold frag_name_of
  rw [hcl]

theorem frag_name_of_none (cfg : Config) (l : List Char)
    (hcl : classify_line l = none) : frag_name_of cfg l = none := by
  unfold frag_name_of
  rw [hcl]

/-- If every matched, non-privileged line already has a duplicate in the
fragment directory, a run changes nothing and only reports skips. -/
theorem run_lines_all_dup (cfg : Config) (env : Env) :
    ∀ (ls : List (List Char)) (st : FsState),
      (∀ l ∈ ls, ∀ u, classify_line l = some u → is_priv u = false →
        (entry_exists_in_sudoers_d (pyStrip l) st.frag_dir).isSome = true) →
      (run_lines cfg env ls st).1 = st ∧
      ∀ e ∈ (run_lines cfg env ls st).2,
        (∃ u f, e = .skipped_dup u f) ∨ (∃ u, e = .skipped_priv u) := by
  intro ls
  induction ls with
  | nil =>
      intro st _
      rw [run_lines_nil]
      exact ⟨rfl, by simp⟩
  | cons l ls ih =>
      intro st hcov
      have hcovtail : ∀ l' ∈ ls, ∀ u, classify_line l' = some u → is_priv u = false →
          (entry_exists_in_sudoers_d (pyStrip l') st.frag_dir).isSome = true :=
        fun l' hl' => hcov l' (by simp [hl'])
      rcases process_line_cases cfg env st l with
        ⟨hcl, hpl⟩ | ⟨u, hcl, hpriv, hpl⟩ | ⟨u, f, hcl, hpriv, hex, hpl⟩ |
        ⟨u, hcl, hpriv, hex, htest, hpl⟩ | ⟨u, hcl, hpriv, hex, htest, hwf, hpl⟩ |
        ⟨u, hcl, hpriv, hex, htest, hwf, hok, hpl⟩ |
        ⟨u, hcl, hpriv, hex, htest, hwf, hok, hrm, hrf, hpl⟩ |
        ⟨u, hcl, hpriv, hex, htest, hwf, hok, hrm, hrf, hpl⟩ |
        ⟨u, hcl, hpriv, hex, htest, hwf, hok, hrm, hpl⟩
      · rw [run_lines_cons_ok cfg env l ls st _ _ hpl]
        refine ⟨(ih st hcovtail).1, ?_⟩
        intro e he
        rcases List.mem_append.mp he with he | he
        · simp at he
        · exact (ih st hcovtail).2 e he
      · rw [run_lines_cons_ok cfg env l ls st _ _ hpl]
        refine ⟨(ih st hcovtail).1, ?_⟩
        intro e he
        rcases List.mem_append.mp he with he | he
        · rcases List.mem_singleton.mp he with rfl
          exact Or.inr ⟨u, rfl⟩
        · exact (ih st hcovtail).2 e he
      · rw [run_lines_cons_ok cfg env l ls st _ _ hpl]
        refine ⟨(ih st hcovtail).1, ?_⟩
        intro e he
        rcases List.mem_append.mp he with he | he
        · rcases List.mem_singleton.mp he with rfl
          exact Or.inl ⟨u, f, rfl⟩
        · exact (ih st hcovtail).2 e he
      all_goals
        exact absurd (hcov l (by simp) u hcl hpriv) (by rw [hex]; simp)

/-- First-run evolution under the benign hypotheses: the fragment
directory only grows, and at the end every matched, non-privileged line
has a duplicate in it. -/
theorem run_lines_fresh_covers (cfg : Config) (env : Env)
    (htest : cfg.test_mode = false) (hrm : cfg.remove_entries = false)
    (hok : ∀ n c, env.visudo_ok n c = true)
    (hwf : ∀ n c, env.frag_write_fails n c = false) :
    ∀ (ls : List (List Char)) (st : FsState),
      (∀ l ∈ ls, (classify_line l).isSome = true → ∀ c ∈ pyStrip l, c ≠ '#') →
      (ls.filterMap (frag_name_of cfg)).Nodup →
      (∀ n ∈ ls.filterMap (frag_name_of cfg), ∀ c, (n, c) ∉ st.frag_dir) →
      ∃ δ, (run_lines cfg env ls st).1.frag_dir = st.frag_dir ++ δ ∧
        ∀ l ∈ ls, ∀ u, classify_line l = some u → is_priv u = false →
          (entry_exists_in_sudoers_d (pyStrip l)
            (run_lines cfg env ls st).1.frag_dir).isSome = true := by
  intro ls
  induction ls with
  | nil =>
      intro st _ _ _
      rw [run_lines_nil]
      exact ⟨[], by simp, by simp⟩
  | cons l ls ih =>
      intro st hhash hnodup hfresh
      have hhashtail : ∀ l' ∈ ls, (classify_line l').isSome = true →
          ∀ c ∈ pyStrip l', c ≠ '#' :=
        fun l' hl' => hhash l' (by simp [hl'])
      rcases process_line_cases cfg env st l with
        ⟨hcl, hpl⟩ | ⟨u, hcl, hpriv, hpl⟩ | ⟨u, f, hcl, hpriv, hex, hpl⟩ |
        ⟨u, hcl, hpriv, hex, htest2, hpl⟩ | ⟨u, hcl, hpriv, hex, htest2, hwf2, hpl⟩ |
        ⟨u, hcl, hpriv, hex, htest2, hwf2, hok2, hpl⟩ |
        ⟨u, hcl, hpriv, hex, htest2, hwf2, hok2, hrm2, hrf2, hpl⟩ |
        ⟨u, hcl, hpriv, hex, htest2, hwf2, hok2, hrm2, hrf2, hpl⟩ |
        ⟨u, hcl, hpriv, hex, htest2, hwf2, hok2, hrm2, hpl⟩
      · -- no match
        rw [run_lines_cons_ok cfg env l ls st _ _ hpl]
        have hnames : (l :: ls).filterMap (frag_name_of cfg) = ls.filterMap (frag_name_of cfg) := by
          rw [List.filterMap_cons, frag_name_of_none cfg l hcl]
        rw [hnames] at hnodup hfresh
        rcases ih st hhashtail hnodup hfresh with ⟨δ, hδ, hcov⟩
        refine ⟨δ, hδ, ?_⟩
        intro l' hl' u hcl2 hpriv2
        rcases List.mem_cons.mp hl' with rfl | hl'
        · rw [hcl] at hcl2; cases hcl2
        · exact hcov l' hl' u hcl2 hpriv2
      · -- privileged
        rw [run_lines_cons_ok cfg env l ls st _ _ hpl]
        have hnames : (l :: ls).filterMap (frag_name_of cfg) = ls.filterMap (frag_name_of cfg) := by
          rw [List.filterMap_cons, frag_name_of_some cfg l u hcl, if_pos hpriv]
        rw [hnames] at hnodup hfresh
        rcases ih st hhashtail hnodup hfresh with ⟨δ, hδ, hcov⟩
        refine ⟨δ, hδ, ?_⟩
        intro l' hl' u' hcl2 hpriv2
        rcases List.mem_cons.mp hl' with rfl | hl'
        · rw [hcl, Option.some_inj] at hcl2
          subst hcl2
          rw [hpriv] at hpriv2
          cases hpriv2
        · exact hcov l' hl' u' hcl2 hpriv2
      · -- duplicate
        rw [run_lines_cons_ok cfg env l ls st _ _ hpl]
        have hnames : (l :: ls).filterMap (frag_name_of cfg)
            = frag_file_base cfg.file_pfx u :: ls.filterMap (frag_name_of cfg) := by
          rw [List.filterMap_cons, frag_name_of_some cfg l u hcl, if_neg (by simp [hpriv])]
        rw [hnames] at hnodup hfresh
        rcases List.nodup_cons.mp hnodup with ⟨_, hnodup2⟩
        have hfresh2 : ∀ n ∈ ls.filterMap (frag_name_of cfg), ∀ c, (n, c) ∉ st.frag_dir :=
          fun n hn => hfresh n (by simp [hn])
        rcases ih st hhashtail hnodup2 hfresh2 with ⟨δ, hδ, hcov⟩
        refine ⟨δ, hδ, ?_⟩
        intro l' hl' u' hcl2 hpriv2
        rcases List.mem_cons.mp hl' with rfl | hl'
        · rw [hδ]
          apply entry_exists_append_isSome
          rw [hex]
          rfl
        · exact hcov l' hl' u' hcl2 hpriv2
      · rw [htest] at htest2; cases htest2
      · rw [hwf (frag_file_base cfg.file_pfx u) (pyStrip l)] at hwf2; cases hwf2
      · rw [hok (frag_file_base cfg.file_pfx u) (pyStrip l)] at hok2; cases hok2
      · rw [hrm] at hrm2; cases hrm2
      · rw [hrm] at hrm2; cases hrm2
      · -- fragment created
        rw [run_lines_cons_ok cfg env l ls st _ _ hpl]
        have hnames : (l :: ls).filterMap (frag_name_of cfg)
            = frag_file_base cfg.file_pfx u :: ls.filterMap (frag_name_of cfg) := by
          rw [List.filterMap_cons, frag_name_of_some cfg l u hcl, if_neg (by simp [hpriv])]
        rw [hnames] at hnodup hfresh
        rcases List.nodup_cons.mp hnodup with ⟨hnotin, hnodup2⟩
        have hfreshhead : ∀ c, (frag_file_base cfg.file_pfx u, c) ∉ st.frag_dir :=
          hfresh _ (by simp)
        have hwrite : write_frag st.frag_dir (frag_file_base cfg.file_pfx u) (pyStrip l)
            = st.frag_dir ++ [(frag_file_base cfg.file_pfx u, pyStrip l)] :=
          write_frag_of_fresh _ _ _ hfreshhead
        have hfresh2 : ∀ n ∈ ls.filterMap (frag_name_of cfg), ∀ c,
            (n, c) ∉ (write_frag st.frag_dir (frag_file_base cfg.file_pfx u)
              (pyStrip l)) := by
          intro n hn c hmem
          rw [hwrite] at hmem
          rcases List.mem_append.mp hmem with hmem | hmem
          · exact hfresh n (by simp [hn]) c hmem
          · rcases List.mem_singleton.mp hmem with heq
            have : n = frag_file_base cfg.file_pfx u := congrArg Prod.fst heq
            rw [this] at hn
            exact hnotin hn
        rcases ih { st with frag_dir := (write_frag st.frag_dir
            (frag_file_base cfg.file_pfx u) (pyStrip l)) } hhashtail hnodup2 hfresh2
          with ⟨δ, hδ, hcov⟩
        refine ⟨(frag_file_base cfg.file_pfx u, pyStrip l) :: δ, ?_, ?_⟩
        · rw [hδ]
          show write_frag st.frag_dir (frag_file_base cfg.file_pfx u) (pyStrip l) ++ δ = _
          rw [hwrite, List.append_assoc]
          rfl
        · intro l' hl' u' hcl2 hpriv2
          rcases List.mem_cons.mp hl' with rfl | hl'
          · rw [entry_exists_isSome_iff]
            refine ⟨(frag_file_base cfg.file_pfx u, pyStrip l'), ?_, ?_⟩
            · rw [hδ, hwrite, List.append_assoc]
              apply List.mem_append_right
              simp
            · apply containsSub_of_eq
              exact (normalized_file_content_no_hash (pyStrip l')
                (hhash l' (by simp) (by rw [hcl2]; rfl))).symm
          · exact hcov l' hl' u' hcl2 hpriv2

theorem classify_line_eq (l : List Char) :
    classify_line l = rule_regex_match (pyStrip l) := rfl

/-- C1 counterexample: the line `-a ALL=(ALL)` has the claimed grammar
shape under the claim's literal identifier description (letters, digits,
underscore, hyphen, "not starting with a digit" as the only restriction on
the first character), yet `rule_regex` rejects it: its first identifier
character class is `[a-z_]`, which also excludes a leading hyphen. -/
theorem C1_counterexample :
    classify_line (lit "-a ALL=(ALL)") = none ∧
    specGrammarLit (pyStrip (lit "-a ALL=(ALL)")) (lit "-a") := by
  constructor
  · decide
  · have hstrip : pyStrip (lit "-a ALL=(ALL)") = lit "-a ALL=(ALL)" := by decide
    rw [hstrip]
    refine ⟨lit " ", [], [], [], ?_, ⟨by decide, by decide⟩, Or.inl rfl, Or.inl rfl,
      Or.inl rfl, by decide⟩
    left
    refine ⟨⟨by decide, by decide⟩, ?_⟩
    intro c hc
    have hc' : c = '-' := by
      have hh : (lit "-a").head? = some '-' := rfl
      rw [hh, Option.some_inj] at hc
      exact hc.symm
    rw [hc']
    decide

/-- C1 (amended): the classifier `rule_regex.match(line.strip())` accepts
exactly the lines of the form
`<principal> ALL=(ALL)[:ALL][ NOPASSWD: ALL][ <trailing>]` where the
principal is a lowercase identifier over letters, digits, underscore and
hyphen that starts with a letter or underscore (not with a digit *or
hyphen*), optionally preceded by the group marker `%`; for every matching
line the extracted principal (group 1) is the first whitespace-delimited
token with the marker preserved, and the derived fragment file basename
is `{prefix}_{principal with the marker stripped}`. -/
theorem C1_classifier_amended (l pfx : List Char) :
    ((∃ p, specGrammarA (pyStrip l) p) ↔ (classify_line l).isSome = true) ∧
    (∀ p, classify_line l = some p →
      specGrammarA (pyStrip l) p ∧ p = firstToken (pyStrip l) ∧
      frag_file_base pfx p = pfx ++ '_' :: stripMarker p) := by
  constructor
  · constructor
    · rintro ⟨p, hp⟩
      rw [classify_line_eq, rule_regex_complete _ p hp]
      rfl
    · intro h
      cases hcl : classify_line l with
      | none => rw [hcl] at h; cases h
      | some p =>
          rw [classify_line_eq] at hcl
          exact ⟨p, (rule_regex_sound _ p hcl).1⟩
  · intro p hp
    rw [classify_line_eq] at hp
    have hs := rule_regex_sound _ p hp
    refine ⟨hs.1, hs.2, ?_⟩
    rcases hs.1 with ⟨w, o1, o2, o3, hpr, _⟩
    exact frag_base_eq_stripMarker pfx p hpr

/-- Witness for C1: the amended theorem applied to a concrete group line. -/
theorem C1_classifier_amended_witness :
    ((∃ p, specGrammarA (pyStrip (lit "%admins ALL=(ALL) NOPASSWD: ALL")) p) ↔
      (classify_line (lit "%admins ALL=(ALL) NOPASSWD: ALL")).isSome = true) ∧
    (∀ p, classify_line (lit "%admins ALL=(ALL) NOPASSWD: ALL") = some p →
      specGrammarA (pyStrip (lit "%admins ALL=(ALL) NOPASSWD: ALL")) p ∧
      p = firstToken (pyStrip (lit "%admins ALL=(ALL) NOPASSWD: ALL")) ∧
      frag_file_base (lit "50") p = lit "50" ++ '_' :: stripMarker p) :=
  C1_classifier_amended (lit "%admins ALL=(ALL) NOPASSWD: ALL") (lit "50")

/-- C2 counterexample: for the rule text `alice ALL=(ALL) #x` and a
directory holding exactly that text, the claim's normalization (comments
stripped from the entry too) makes the entry a substring of the file's
normalized content, so the claimed iff demands `some`; the code does not
strip comments from the entry (line 67) and returns `none`. -/
theorem C2_counterexample :
    entry_exists_in_sudoers_d (lit "alice ALL=(ALL) #x")
      [(lit "10_alice", lit "alice ALL=(ALL) #x")] = none ∧
    containsSub (spec_normalized_entry (lit "alice ALL=(ALL) #x"))
      (normalized_file_content (lit "alice ALL=(ALL) #x")) = true := by
  constructor
  · decide
  · decide

/-- C2 (amended): the detector returns a file name iff some fragment's
content — comments stripped, whitespace collapsed, lowercased — contains
the entry's normalized text, where the *entry's* normalization only
collapses whitespace and lowercases (no comment stripping); the returned
name is such a fragment. -/
theorem C2_detector_amended (e : List Char) (d : List (List Char × List Char)) :
    ((entry_exists_in_sudoers_d e d).isSome = true ↔
      ∃ p ∈ d, containsSub (normalized_entry e) (normalized_file_content p.2) = true) ∧
    (∀ n, entry_exists_in_sudoers_d e d = some n →
      ∃ c, (n, c) ∈ d ∧
        containsSub (normalized_entry e) (normalized_file_content c) = true) :=
  ⟨entry_exists_isSome_iff e d, fun n h => entry_exists_some_mem e n d h⟩

/-- Witness for C2: the amended iff, instantiated and evaluated on a
directory whose file matches only up to case, spacing and a comment. -/
theorem C2_detector_amended_witness :
    (entry_exists_in_sudoers_d (lit "alice ALL=(ALL)")
      [(lit "f", lit "ALICE  ALL=(ALL) # note")]).isSome = true :=
  (C2_detector_amended (lit "alice ALL=(ALL)")
      [(lit "f", lit "ALICE  ALL=(ALL) # note")]).1.mpr
    ⟨(lit "f", lit "ALICE  ALL=(ALL) # note"), by decide, by decide⟩

/-- C3: with test mode enabled a run leaves the filesystem state
byte-identical and every logged event is a would-create or a skip — no
line reaches fragment creation, validation, or removal. -/
theorem C3_test_mode_no_effects (cfg : Config) (env : Env) (st : FsState)
    (ht : cfg.test_mode = true) :
    (create_sudoers_d_files cfg env st).1 = st ∧
    ∀ e ∈ (create_sudoers_d_files cfg env st).2,
      (∃ n, e = .would_create n) ∨ (∃ u f, e = .skipped_dup u f) ∨
      (∃ u, e = .skipped_priv u) :=
  run_lines_test cfg env ht st.src_lines st

/-- Witness for C3: a test-mode run over a matching line. -/
theorem C3_test_mode_no_effects_witness :
    (create_sudoers_d_files ⟨lit "10", true, true⟩
      ⟨fun _ _ => true, fun _ _ => false, fun _ => false⟩
      ⟨[lit "alice ALL=(ALL)"], []⟩).1 = (⟨[lit "alice ALL=(ALL)"], []⟩ : FsState) ∧
    ∀ e ∈ (create_sudoers_d_files ⟨lit "10", true, true⟩
      ⟨fun _ _ => true, fun _ _ => false, fun _ => false⟩
      ⟨[lit "alice ALL=(ALL)"], []⟩).2,
      (∃ n, e = .would_create n) ∨ (∃ u f, e = .skipped_dup u f) ∨
      (∃ u, e = .skipped_priv u) :=
  C3_test_mode_no_effects ⟨lit "10", true, true⟩
    ⟨fun _ _ => true, fun _ _ => false, fun _ => false⟩
    ⟨[lit "alice ALL=(ALL)"], []⟩ rfl

/-- C4 counterexample: the fragment `10_alice` written for the first line
fails validation and is deleted, but the second line re-creates the same
path with content that passes, so the exact path of a failed-validation
fragment does exist after the run completes. -/
theorem C4_counterexample :
    Event.validated (lit "10_alice") false ∈
      (create_sudoers_d_files ⟨lit "10", false, false⟩
        ⟨fun _ c => decide (c = lit "alice ALL=(ALL):ALL"), fun _ _ => false, fun _ => false⟩
        ⟨[lit "alice ALL=(ALL)", lit "alice ALL=(ALL):ALL"], []⟩).2 ∧
    (create_sudoers_d_files ⟨lit "10", false, false⟩
        ⟨fun _ c => decide (c = lit "alice ALL=(ALL):ALL"), fun _ _ => false, fun _ => false⟩
        ⟨[lit "alice ALL=(ALL)", lit "alice ALL=(ALL):ALL"], []⟩).1.frag_dir
      = [(lit "10_alice", lit "alice ALL=(ALL):ALL")] := by
  constructor
  · decide
  · decide

/-- C4 (amended): a fragment that fails validation is deleted at once, and
at the end of the run every fragment in the directory either predates the
run or passed validation; the failed fragment's exact path can exist at
the end only because a later line wrote a fragment there that passed. -/
theorem C4_validation_cleanup_amended (cfg : Config) (env : Env) (st : FsState)
    (p : List Char × List Char)
    (hp : p ∈ (create_sudoers_d_files cfg env st).1.frag_dir) :
    p ∈ st.frag_dir ∨ env.visudo_ok p.1 p.2 = true :=
  run_lines_frag_validated cfg env st.src_lines st p hp

/-- Witness for C4: the amended theorem applied to a run that writes one
validated fragment. -/
theorem C4_validation_cleanup_amended_witness :
    (lit "10_bob", lit "bob ALL=(ALL)") ∈ (⟨[lit "bob ALL=(ALL)"], []⟩ : FsState).frag_dir ∨
    (⟨fun _ _ => true, fun _ _ => false, fun _ => false⟩ : Env).visudo_ok
      (lit "10_bob") (lit "bob ALL=(ALL)") = true :=
  C4_validation_cleanup_amended ⟨lit "10", false, false⟩
    ⟨fun _ _ => true, fun _ _ => false, fun _ => false⟩
    ⟨[lit "bob ALL=(ALL)"], []⟩ (lit "10_bob", lit "bob ALL=(ALL)") (by decide)

/-- C5 counterexample: a matched line carrying a `#` comment is written to
a fragment by the first run, but the second run does not classify it as a
duplicate (the detector strips comments from file contents but not from
the entry), so the second run creates a fragment again: its event log is a
create followed by a validation, with no duplicate skip. -/
theorem C5_counterexample :
    (create_sudoers_d_files ⟨lit "10", false, false⟩
      ⟨fun _ _ => true, fun _ _ => false, fun _ => false⟩
      (create_sudoers_d_files ⟨lit "10", false, false⟩
        ⟨fun _ _ => true, fun _ _ => false, fun _ => false⟩
        ⟨[lit "alice ALL=(ALL) # hi"], []⟩).1).2
      = [Event.created (lit "10_alice"), Event.validated (lit "10_alice") true] := by
  decide

/-- C5 (amended): with removal disabled, an initially empty fragment
directory, a validator that accepts everything, no I/O faults, no `#` in
any *matched* line (unmatched lines, such as ordinary comment lines, are
unrestricted), and pairwise-distinct derived fragment names, the second run
classifies every matched non-privileged rule as a duplicate: it changes
nothing and logs only duplicate or privilege skips (zero new fragments). -/
theorem C5_idempotent_amended (cfg : Config) (env : Env) (st : FsState)
    (htest : cfg.test_mode = false) (hrm : cfg.remove_entries = false)
    (hok : ∀ n c, env.visudo_ok n c = true)
    (hwf : ∀ n c, env.frag_write_fails n c = false)
    (hdir : st.frag_dir = [])
    (hhash : ∀ l ∈ st.src_lines, (classify_line l).isSome = true →
      ∀ c ∈ pyStrip l, c ≠ '#')
    (hnodup : (st.src_lines.filterMap (frag_name_of cfg)).Nodup) :
    (create_sudoers_d_files cfg env (create_sudoers_d_files cfg env st).1).1
      = (create_sudoers_d_files cfg env st).1 ∧
    ∀ e ∈ (create_sudoers_d_files cfg env (create_sudoers_d_files cfg env st).1).2,
      (∃ u f, e = .skipped_dup u f) ∨ (∃ u, e = .skipped_priv u) := by
  have hfresh : ∀ n ∈ st.src_lines.filterMap (frag_name_of cfg), ∀ c,
      (n, c) ∉ st.frag_dir := by
    rw [hdir]
    intro n _ c hmem
    exact absurd hmem (List.not_mem_nil _)
  rcases run_lines_fresh_covers cfg env htest hrm hok hwf st.src_lines st hhash hnodup hfresh
    with ⟨δ, hδ, hcov⟩
  have hsrc : (run_lines cfg env st.src_lines st).1.src_lines = st.src_lines :=
    run_lines_src_unchanged cfg env hrm st.src_lines st
  unfold create_sudoers_d_files
  rw [hsrc]
  exact run_lines_all_dup cfg env st.src_lines (run_lines cfg env st.src_lines st).1 hcov

/-- Witness for C5: the amended theorem on a source holding an ordinary
comment line and two matched lines with distinct principals, with an
always-passing validator and no faults. -/
theorem C5_idempotent_amended_witness :
    (create_sudoers_d_files ⟨lit "10", false, false⟩
      ⟨fun _ _ => true, fun _ _ => false, fun _ => false⟩
      (create_sudoers_d_files ⟨lit "10", false, false⟩
        ⟨fun _ _ => true, fun _ _ => false, fun _ => false⟩
        ⟨[lit "# managed entries", lit "alice ALL=(ALL)", lit "%admins ALL=(ALL):ALL"], []⟩).1).1
      = (create_sudoers_d_files ⟨lit "10", false, false⟩
        ⟨fun _ _ => true, fun _ _ => false, fun _ => false⟩
        ⟨[lit "# managed entries", lit "alice ALL=(ALL)", lit "%admins ALL=(ALL):ALL"], []⟩).1 ∧
    ∀ e ∈ (create_sudoers_d_files ⟨lit "10", false, false⟩
      ⟨fun _ _ => true, fun _ _ => false, fun _ => false⟩
      (create_sudoers_d_files ⟨lit "10", false, false⟩
        ⟨fun _ _ => true, fun _ _ => false, fun _ => false⟩
        ⟨[lit "# managed entries", lit "alice ALL=(ALL)", lit "%admins ALL=(ALL):ALL"], []⟩).1).2,
      (∃ u f, e = .skipped_dup u f) ∨ (∃ u, e = .skipped_priv u) :=
  C5_idempotent_amended ⟨lit "10", false, false⟩
    ⟨fun _ _ => true, fun _ _ => false, fun _ => false⟩
    ⟨[lit "# managed entries", lit "alice ALL=(ALL)", lit "%admins ALL=(ALL):ALL"], []⟩
    rfl rfl (fun _ _ => rfl) (fun _ _ => rfl) rfl (by decide) (by decide)

/-- C6: `remove_entry_from_sudoers` evaluated at the failing input
(source `["alice ALL=(ALL)", "keep me"]`, entry `alice ALL=(ALL)`, with
the temporary file on a different filesystem from the source — the
typical deployment, since `tempfile.NamedTemporaryFile` uses the default
temporary directory while the sudoers file lives elsewhere).  The
temporary-file phase and the same-filesystem rename do keep the source
byte-identical at every pre-final state (first two conjuncts), but on
the cross-filesystem fallback the trace passes through the truncated
destination state `⟨[], ["keep me"]⟩` strictly before completion: an
`IOError` there leaves the source file neither byte-identical to its
pre-mutation state nor equal to the rewritten result, and the
replacement is a chunked copy, not a single rename-equivalent
operation — contradicting the claim, whose requirement the code fails
to guarantee. -/
theorem C6_move_fallback_not_atomic :
    (∀ ms ∈ (mutator_trace [lit "alice ALL=(ALL)", lit "keep me"]
        (lit "alice ALL=(ALL)") true).dropLast,
      ms.src = [lit "alice ALL=(ALL)", lit "keep me"]) ∧
    (mutator_trace [lit "alice ALL=(ALL)", lit "keep me"]
        (lit "alice ALL=(ALL)") true).getLast?
      = some ⟨remove_entry_from_sudoers [lit "alice ALL=(ALL)", lit "keep me"]
            (lit "alice ALL=(ALL)"),
          remove_entry_from_sudoers [lit "alice ALL=(ALL)", lit "keep me"]
            (lit "alice ALL=(ALL)")⟩ ∧
    (⟨[], [lit "keep me"]⟩ : MutatorState) ∈
      (mutator_trace [lit "alice ALL=(ALL)", lit "keep me"]
        (lit "alice ALL=(ALL)") false).dropLast ∧
    ([] : List (List Char)) ≠ [lit "alice ALL=(ALL)", lit "keep me"] ∧
    ([] : List (List Char)) ≠ remove_entry_from_sudoers
      [lit "alice ALL=(ALL)", lit "keep me"] (lit "alice ALL=(ALL)") := by
  refine ⟨?_, ?_, ?_, ?_, ?_⟩ <;> decide

/-- C7 counterexample: with a fault injected on the write of `10_alice`,
the run ends at the first line with a single reported error and the second
line (which, fault-free, creates `10_bob`) is never processed — per-line
IOErrors are not contained. -/
theorem C7_counterexample :
    create_sudoers_d_files ⟨lit "10", false, false⟩
      ⟨fun _ _ => true, fun n _ => decide (n = lit "10_alice"), fun _ => false⟩
      ⟨[lit "alice ALL=(ALL)", lit "bob ALL=(ALL)"], []⟩
      = (⟨[lit "alice ALL=(ALL)", lit "bob ALL=(ALL)"], []⟩, [Event.io_error]) ∧
    Event.created (lit "10_bob") ∈
      (create_sudoers_d_files ⟨lit "10", false, false⟩
        ⟨fun _ _ => true, fun _ _ => false, fun _ => false⟩
        ⟨[lit "alice ALL=(ALL)", lit "bob ALL=(ALL)"], []⟩).2 := by
  constructor
  · decide
  · decide

/-- C7 (amended): an IOError raised while processing any line — fragment
write or source rewrite — is caught by the single handler that also
catches source-open failure: the run reports one error and ends with the
state reached so far; no later line is processed. -/
theorem C7_ioerror_aborts_amended (cfg : Config) (env : Env) (st st1 : FsState)
    (l : List Char) (ls : List (List Char)) (ev : List Event)
    (h : process_line cfg env st l = .error (st1, ev)) :
    run_lines cfg env (l :: ls) st = (st1, ev ++ [.io_error]) :=
  run_lines_cons_error cfg env l ls st st1 ev h

/-- Witness for C7: the amended theorem at the faulting run of the
counterexample scenario. -/
theorem C7_ioerror_aborts_amended_witness :
    run_lines ⟨lit "10", false, false⟩
      ⟨fun _ _ => true, fun n _ => decide (n = lit "10_alice"), fun _ => false⟩
      (lit "alice ALL=(ALL)" :: [lit "bob ALL=(ALL)"])
      ⟨[lit "alice ALL=(ALL)", lit "bob ALL=(ALL)"], []⟩
      = (⟨[lit "alice ALL=(ALL)", lit "bob ALL=(ALL)"], []⟩, [] ++ [Event.io_error]) :=
  C7_ioerror_aborts_amended ⟨lit "10", false, false⟩
    ⟨fun _ _ => true, fun n _ => decide (n = lit "10_alice"), fun _ => false⟩
    ⟨[lit "alice ALL=(ALL)", lit "bob ALL=(ALL)"], []⟩
    ⟨[lit "alice ALL=(ALL)", lit "bob ALL=(ALL)"], []⟩
    (lit "alice ALL=(ALL)") [lit "bob ALL=(ALL)"] [] rfl

/-- C8: a line whose first whitespace-delimited token is `root` or
`%wheel` in any letter case never creates a fragment and never mutates
the source, regardless of the duplicate state: either the classifier
rejects it (the regex principal is lowercase-only), or it matches and the
case-insensitive privilege check skips it before any write. -/
theorem C8_privileged_skip (cfg : Config) (env : Env) (st : FsState) (l : List Char)
    (h : lowerStr (firstToken (pyStrip l)) = lit "root" ∨
         lowerStr (firstToken (pyStrip l)) = lit "%wheel") :
    ∃ ev, process_line cfg env st l = .ok (st, ev) ∧
      ∀ e ∈ ev, ∃ u, e = .skipped_priv u := by
  cases hcl : classify_line l with
  | none =>
      exact ⟨[], process_line_of_none cfg env st l hcl, by simp⟩
  | some u =>
      have hcl' : rule_regex_match (pyStrip l) = some u := by
        rw [← classify_line_eq]; exact hcl
      have hu : u = firstToken (pyStrip l) := (rule_regex_sound (pyStrip l) u hcl').2
      have hpriv : is_priv u = true := by
        unfold is_priv
        rw [hu]
        rcases h with h | h
        · simp [h]
        · simp [h]
      exact ⟨[.skipped_priv u], process_line_of_priv cfg env st l u hcl hpriv,
        by simp⟩

/-- Witness for C8: the uppercase line `ROOT ALL=(ALL)`. -/
theorem C8_privileged_skip_witness :
    ∃ ev, process_line ⟨lit "10", false, false⟩
      ⟨fun _ _ => true, fun _ _ => false, fun _ => false⟩
      ⟨[lit "ROOT ALL=(ALL)"], []⟩ (lit "ROOT ALL=(ALL)")
      = .ok (⟨[lit "ROOT ALL=(ALL)"], []⟩, ev) ∧
      ∀ e ∈ ev, ∃ u, e = .skipped_priv u :=
  C8_privileged_skip ⟨lit "10", false, false⟩
    ⟨fun _ _ => true, fun _ _ => false, fun _ => false⟩
    ⟨[lit "ROOT ALL=(ALL)"], []⟩ (lit "ROOT ALL=(ALL)") (Or.inl (by decide))

/-- C9 counterexample: the source line ` alice ALL=(ALL)` (leading space)
matches, but the fragment receives the *stripped* text
`alice ALL=(ALL)`, which is not byte-for-byte the original line. -/
theorem C9_counterexample :
    (create_sudoers_d_files ⟨lit "10", false, false⟩
      ⟨fun _ _ => true, fun _ _ => false, fun _ => false⟩
      ⟨[lit " alice ALL=(ALL)"], []⟩).1.frag_dir
      = [(lit "10_alice", lit "alice ALL=(ALL)")] ∧
    lit "alice ALL=(ALL)" ≠ lit " alice ALL=(ALL)" := by
  constructor
  · decide
  · decide

/-- C9 (amended): the content of every fragment the run writes is the
whitespace-stripped source line (`line.strip()`, also used as `rawText`
for removal matching), byte-for-byte; it equals the raw line only when
the line carries no surrounding whitespace. -/
theorem C9_fragment_content_amended (cfg : Config) (env : Env) (st : FsState)
    (p : List Char × List Char)
    (hp : p ∈ (create_sudoers_d_files cfg env st).1.frag_dir) :
    p ∈ st.frag_dir ∨ ∃ l ∈ st.src_lines, p.2 = pyStrip l :=
  run_lines_frag_content cfg env st.src_lines st p hp

/-- Witness for C9: the amended theorem at the leading-space run. -/
theorem C9_fragment_content_amended_witness :
    (lit "10_alice", lit "alice ALL=(ALL)") ∈
      (⟨[lit " alice ALL=(ALL)"], []⟩ : FsState).frag_dir ∨
    ∃ l ∈ (⟨[lit " alice ALL=(ALL)"], []⟩ : FsState).src_lines,
      (lit "10_alice", lit "alice ALL=(ALL)").2 = pyStrip l :=
  C9_fragment_content_amended ⟨lit "10", false, false⟩
    ⟨fun _ _ => true, fun _ _ => false, fun _ => false⟩
    ⟨[lit " alice ALL=(ALL)"], []⟩ (lit "10_alice", lit "alice ALL=(ALL)") (by decide)

/-- C10 counterexample: the target path `10_alice` already exists with
different content; the run silently replaces it and reports no error —
the event log is exactly a create and a successful validation. -/
theorem C10_counterexample :
    create_sudoers_d_files ⟨lit "10", false, false⟩
      ⟨fun _ _ => true, fun _ _ => false, fun _ => false⟩
      ⟨[lit "alice ALL=(ALL)"], [(lit "10_alice", lit "carol ALL=(ALL)")]⟩
      = (⟨[lit "alice ALL=(ALL)"], [(lit "10_alice", lit "alice ALL=(ALL)")]⟩,
         [Event.created (lit "10_alice"), Event.validated (lit "10_alice") true]) := by
  decide

/-- C10 (amended): when the duplicate scan finds no match, the writer
opens the derived target path unconditionally (`open(file_name, 'w')`):
a pre-existing file at that exact path is silently truncated and replaced
with the new rule, and no error is surfaced; an existing file at the
target survives only if the duplicate scan matched some fragment. -/
theorem C10_overwrite_amended (cfg : Config) (env : Env) (st : FsState) (l u : List Char)
    (hcl : classify_line l = some u) (hpriv : is_priv u = false)
    (hex : entry_exists_in_sudoers_d (pyStrip l) st.frag_dir = none)
    (htest : cfg.test_mode = false)
    (hwf : env.frag_write_fails (frag_file_base cfg.file_pfx u) (pyStrip l) = false)
    (hok : env.visudo_ok (frag_file_base cfg.file_pfx u) (pyStrip l) = true)
    (hrm : cfg.remove_entries = false)
    (hexists : st.frag_dir.any
      (fun q => decide (q.1 = frag_file_base cfg.file_pfx u)) = true) :
    process_line cfg env st l = .ok
      ({ st with frag_dir := (st.frag_dir.map (fun q =>
          if q.1 = frag_file_base cfg.file_pfx u
          then (frag_file_base cfg.file_pfx u, pyStrip l) else q)) },
        [.created (frag_file_base cfg.file_pfx u),
         .validated (frag_file_base cfg.file_pfx u) true]) := by
  have hred := process_line_of_nodup cfg env st l u hcl hpriv hex
  rw [if_neg (by rw [htest]; simp), if_neg (by rw [hwf]; simp),
    if_neg (by rw [hok]; simp), if_neg (by rw [hrm]; simp)] at hred
  rw [hred]
  unfold write_frag
  rw [if_pos hexists]

theorem C10_overwrite_amended_witness :
    process_line ⟨lit "10", false, false⟩
      ⟨fun _ _ => true, fun _ _ => false, fun _ => false⟩
      ⟨[lit "alice ALL=(ALL)"], [(lit "10_alice", lit "carol ALL=(ALL)")]⟩
      (lit "alice ALL=(ALL)") = .ok
      ({ (⟨[lit "alice ALL=(ALL)"], [(lit "10_alice", lit "carol ALL=(ALL)")]⟩ : FsState)
          with frag_dir :=
          ((⟨[lit "alice ALL=(ALL)"], [(lit "10_alice", lit "carol ALL=(ALL)")]⟩ :
            FsState).frag_dir.map (fun q =>
            if q.1 = frag_file_base (lit "10") (lit "alice")
            then (frag_file_base (lit "10") (lit "alice"),
              pyStrip (lit "alice ALL=(ALL)")) else q)) },
        [.created (frag_file_base (lit "10") (lit "alice")),
         .validated (frag_file_base (lit "10") (lit "alice")) true]) :=
  C10_overwrite_amended ⟨lit "10", false, false⟩
    ⟨fun _ _ => true, fun _ _ => false, fun _ => false⟩
    ⟨[lit "alice ALL=(ALL)"], [(lit "10_alice", lit "carol ALL=(ALL)")]⟩
    (lit "alice ALL=(ALL)") (lit "alice") (by decide) (by decide) (by decide)
    rfl (by decide) (by decide) rfl (by decide)

end PySudoers
